import Mathlib

/-!
Verification of the cctz civil-time library (src/cctz_libc.cc, src/cctz_fmt.cc)
against its natural-language specification.  The C++ sources are shallowly
embedded: machine integers become `Int` (with explicit two's-complement
wrap-around where a C++ conversion can actually overflow), C strings become
`List Char` (the character just past the end of a list is the NUL terminator),
nullable `const char*` cursors become `Option (List Char)`, and the host libc
functions `strftime`/`strptime` (which are not part of this repository) are
oracle parameters.

While loops are embedded as structurally recursive functions over an explicit
fuel argument so that every definition is kernel-computable; in each case the
fuel supplied by the wrapper strictly exceeds the number of iterations the
C++ loop can perform for every input (a comment at each loop justifies the
bound), so the exhaustion branch is never reached.
-/

set_option maxRecDepth 10000

namespace Cctz

/-- Two's-complement wrap-around of an integer into the range of a signed
64-bit value, modelling C++ conversions to `int64_t`/`std::time_t`. -/
def wrap64 (x : Int) : Int := (x + 2 ^ 63) % 2 ^ 64 - 2 ^ 63

/-- Two's-complement wrap-around into the 128-bit representation underlying
`cctz::duration` and `cctz::time_point` (nanosecond counts). -/
def wrap128 (x : Int) : Int := (x + 2 ^ 127) % 2 ^ 128 - 2 ^ 127

/-- FromUnixSeconds from cctz_if.h: seconds to a (128-bit) nanosecond count.
The multiplication cannot overflow 128 bits for any `int64_t` input. -/
def FromUnixSeconds (t : Int) : Int := t * 10 ^ 9

/-- ToUnixSeconds from cctz_if.h: `duration_cast` to `duration<int64_t>`
divides the 128-bit nanosecond count by 10^9 truncating toward zero and then
converts the quotient to `int64_t`, which wraps modulo 2^64. -/
def ToUnixSeconds (tp : Int) : Int := wrap64 ((wrap128 tp).tdiv (10 ^ 9))

/-- NormalizeField from cctz_libc.cc: `carry = val / base; val %= base;` with
C++ truncating division, followed by the negative-residue fix-up.  Returns
`(carry, residue)`; the caller records `normalized` iff the carry is
nonzero. -/
def NormalizeField (base val : Int) : Int × Int :=
  let carry := val.tdiv base
  let v := val.tmod base
  if v < 0 then (carry - 1, v + base) else (carry, v)

/-- IsLeap from cctz_libc.cc (C++ `%` is truncating division's remainder,
`Int.tmod`). -/
def IsLeap (year : Int) : Bool :=
  year.tmod 4 == 0 && (year.tmod 100 != 0 || year.tmod 400 == 0)

/-- kDaysPerMonth from cctz_libc.cc as a function of the leap flag and the
1-based month.  The source array stores `-1` at index 0 and is only ever read
at indices in [1, 12]; reads outside [0, 12] would be out of bounds in C++,
so the value returned here for months outside [1, 12] (31) is arbitrary. -/
def kDaysPerMonth (leap : Bool) (m : Int) : Int :=
  if m = 1 then 31
  else if m = 2 then (if leap then 29 else 28)
  else if m = 3 then 31
  else if m = 4 then 30
  else if m = 5 then 31
  else if m = 6 then 30
  else if m = 7 then 31
  else if m = 8 then 31
  else if m = 9 then 30
  else if m = 10 then 31
  else if m = 11 then 30
  else if m = 12 then 31
  else 31

/-- kDaysPerYear from cctz_libc.cc. -/
def kDaysPerYear (leap : Bool) : Int := if leap then 366 else 365

/-- DayOrdinal from cctz_libc.cc: days relative to 1970-01-01 of a normalized
proleptic-Gregorian date (Hinnant's days_from_civil).  C++ `/` truncates
toward zero, hence `Int.tdiv`. -/
def DayOrdinal (year mon day : Int) : Int :=
  let y := year - (if mon ≤ 2 then 1 else 0)
  let era := (if 0 ≤ y then y else y - 399).tdiv 400
  let yoe := y - era * 400
  let doy := (153 * (mon + (if 2 < mon then -3 else 9)) + 2).tdiv 5 + day - 1
  let doe := yoe * 365 + yoe.tdiv 4 - yoe.tdiv 100 + doy
  era * 146097 + doe - 719468

/-- The `while (day > year_len)` loop of TimeZoneLibC::MakeTimeInfo: walk
years forward while the day count exceeds the current year length. -/
def yearLoopUpF : Nat → Int → Int → Int × Int
  | 0, year, day => (year, day)
  | fuel + 1, year, day =>
    if kDaysPerYear (IsLeap year) < day then
      yearLoopUpF fuel (year + 1) (day - kDaysPerYear (IsLeap year))
    else (year, day)

/-- Wrapper supplying fuel for `yearLoopUpF`: each iteration decreases `day`
by at least 365 and runs only while `365 < day`, so the loop performs at most
`day` iterations and `day.toNat + 1` fuel is never exhausted. -/
def yearLoopUp (year day : Int) : Int × Int := yearLoopUpF (day.toNat + 1) year day

/-- The `while (day <= 0)` loop of TimeZoneLibC::MakeTimeInfo: walk years
backward while the day count is nonpositive. -/
def yearLoopDownF : Nat → Int → Int → Int × Int
  | 0, year, day => (year, day)
  | fuel + 1, year, day =>
    if day ≤ 0 then
      yearLoopDownF fuel (year - 1) (day + kDaysPerYear (IsLeap (year - 1)))
    else (year, day)

/-- Wrapper supplying fuel for `yearLoopDownF`: each iteration increases
`day` by at least 365 and runs only while `day ≤ 0`, so `(1 - day).toNat + 1`
fuel is never exhausted. -/
def yearLoopDown (year day : Int) : Int × Int :=
  yearLoopDownF ((1 - day).toNat + 1) year day

/-- The month-normalization loop of TimeZoneLibC::MakeTimeInfo: subtract the
current month's length while the day count exceeds it, advancing the month
and wrapping into the next year (recomputing the leap flag on a wrap). -/
def monthLoopF : Nat → Bool → Int → Int → Int → Int × Int × Int
  | 0, _, year, mon, day => (year, mon, day)
  | fuel + 1, leap, year, mon, day =>
    if kDaysPerMonth leap mon < day then
      let day2 := day - kDaysPerMonth leap mon
      if 12 < mon + 1 then monthLoopF fuel (IsLeap (year + 1)) (year + 1) 1 day2
      else monthLoopF fuel leap year (mon + 1) day2
    else (year, mon, day)

/-- Wrapper supplying fuel for `monthLoopF`: each iteration decreases `day`
by at least 28 (the month is always in [1, 12] at the table read) and runs
only while `28 ≤ kDaysPerMonth … < day`, so `day.toNat + 1` fuel is never
exhausted. -/
def monthLoop (leap : Bool) (year mon day : Int) : Int × Int × Int :=
  monthLoopF (day.toNat + 1) leap year mon day

inductive TimeInfoKind
  | UNIQUE
  | SKIPPED
  | REPEATED
deriving DecidableEq

/-- TimeInfo from cctz.h; the three instants are 128-bit nanosecond counts. -/
structure TimeInfo where
  kind : TimeInfoKind
  pre : Int
  trans : Int
  post : Int
  normalized : Bool
deriving DecidableEq

/-- The UTC (`!local_`) branch of TimeZoneLibC::MakeTimeInfo from
cctz_libc.cc: normalize the six fields (recording a nonzero carry from any
NormalizeField call in `normalized`), then convert via DayOrdinal.  Note that
the day-of-year and month-of-year while loops do not touch `normalized`. -/
def MakeTimeInfoUtc (year mon day hour min sec : Int) : TimeInfo :=
  let p1 := NormalizeField 60 sec
  let sec1 := p1.2
  let min1 := min + p1.1
  let p2 := NormalizeField 60 min1
  let min2 := p2.2
  let hour1 := hour + p2.1
  let p3 := NormalizeField 24 hour1
  let hour2 := p3.2
  let day1 := day + p3.1
  let p4 := NormalizeField 12 (mon - 1)
  let mon1 := p4.2 + 1
  let year1 := year + p4.1
  let normalized : Bool := p1.1 != 0 || p2.1 != 0 || p3.1 != 0 || p4.1 != 0
  let year2 := year1 + (if 2 < mon1 then 1 else 0)
  let q1 := yearLoopUp year2 day1
  let q2 := yearLoopDown q1.1 q1.2
  let year5 := q2.1 - (if 2 < mon1 then 1 else 0)
  let q3 := monthLoop (IsLeap year5) year5 mon1 q2.2
  let t := ((DayOrdinal q3.1 q3.2.1 q3.2.2 * 24 + hour2) * 60 + min2) * 60 + sec1
  { kind := .UNIQUE, pre := FromUnixSeconds t, trans := FromUnixSeconds t,
    post := FromUnixSeconds t, normalized := normalized }

/-- The sub-second split at the head of TimeZoneLibC::BreakTime from
cctz_libc.cc: `t = ToUnixSeconds(tp); subsecond = tp - FromUnixSeconds(t);`
followed by the negative-remainder fix-up.  Returns `(t, subsecond)`; the
`t -= 1` is an `int64_t` operation and the subtractions producing `subsecond`
are 128-bit arithmetic. -/
def BreakTimeSplit (tp : Int) : Int × Int :=
  let t := ToUnixSeconds tp
  let subsecond := wrap128 (wrap128 tp - FromUnixSeconds t)
  if subsecond < 0 then (wrap64 (t - 1), wrap128 (subsecond + 10 ^ 9))
  else (t, subsecond)

/-! ## Claim C1: normalization flag of the UTC backend -/

/-- C1: the code contradicts the claim (and its own documentation in cctz.h,
which shows `MakeTimeInfo(2013, 10, 32, …)` returning `normalized == true`).
At input (2013, 10, 32, 8, 30, 0) the UTC backend carries the out-of-range
day of month into November 1 — the resulting instant equals the one produced
for the canonical fields (2013, 11, 1, 8, 30, 0) — yet the returned
`normalized` flag is `false`, because the day-of-month normalization loops
never set it. -/
theorem MakeTimeInfoUtc_oct32_flag_false :
    MakeTimeInfoUtc 2013 10 32 8 30 0 =
      { kind := .UNIQUE, pre := 1383294600 * 10 ^ 9, trans := 1383294600 * 10 ^ 9,
        post := 1383294600 * 10 ^ 9, normalized := false } ∧
    MakeTimeInfoUtc 2013 11 1 8 30 0 =
      { kind := .UNIQUE, pre := 1383294600 * 10 ^ 9, trans := 1383294600 * 10 ^ 9,
        post := 1383294600 * 10 ^ 9, normalized := false } := by
  constructor <;> decide

/-! ## Claim C2: DayOrdinal is strictly increasing in the civil order

The proof factors `DayOrdinal` through a closed form `dayF` on the shifted
(March-first) calendar and shows `dayF` strictly monotone for the
lexicographic order on shifted dates. -/

/-- A canonical proleptic-Gregorian date: month in [1, 12], day within the
month's length (Feb 29 only in leap years, per the kDaysPerMonth table). -/
def CanonicalDate (y m d : Int) : Prop :=
  1 ≤ m ∧ m ≤ 12 ∧ 1 ≤ d ∧ d ≤ kDaysPerMonth (IsLeap y) m

instance (y m d : Int) : Decidable (CanonicalDate y m d) :=
  inferInstanceAs (Decidable (1 ≤ m ∧ m ≤ 12 ∧ 1 ≤ d ∧ d ≤ kDaysPerMonth (IsLeap y) m))

/-- Civil (lexicographic year, month, day) strict order on dates. -/
def CivilLt (y1 m1 d1 y2 m2 d2 : Int) : Prop :=
  y1 < y2 ∨ (y1 = y2 ∧ (m1 < m2 ∨ (m1 = m2 ∧ d1 < d2)))

instance (y1 m1 d1 y2 m2 d2 : Int) : Decidable (CivilLt y1 m1 d1 y2 m2 d2) :=
  inferInstanceAs (Decidable (y1 < y2 ∨ (y1 = y2 ∧ (m1 < m2 ∨ (m1 = m2 ∧ d1 < d2)))))

/-- Shifted month index of Hinnant's algorithm: March is 0, February is 11. -/
def shiftM (m : Int) : Int := m + (if 2 < m then -3 else 9)

/-- Shifted year: the civil year, minus one for January and February. -/
def shiftY (y m : Int) : Int := y - (if m ≤ 2 then 1 else 0)

/-- Day offset of a shifted month within the shifted year. -/
def doyS (m2 : Int) : Int := (153 * m2 + 2) / 5

/-- Leap-day count appearing in the closed form of DayOrdinal. -/
def leapsTo (y : Int) : Int := y / 4 - y / 100 + y / 400

/-- Indicator (0 or 1) of a leap year. -/
def leapInd (y : Int) : Int := if IsLeap y then 1 else 0

/-- Closed form of DayOrdinal on the shifted calendar. -/
def dayF (y2 m2 d : Int) : Int := 365 * y2 + leapsTo y2 + doyS m2 + d - 1 - 719468

/-- Length of a shifted month (shifted month 11 is February of civil year
`y2 + 1`). -/
def shiftLen (y2 m2 : Int) : Int :=
  if m2 = 11 then 28 + leapInd (y2 + 1) else doyS (m2 + 1) - doyS m2

theorem isLeap_iff (y : Int) :
    IsLeap y = true ↔ ((4:Int) ∣ y ∧ (¬(100:Int) ∣ y ∨ (400:Int) ∣ y)) := by
  simp only [IsLeap, Bool.and_eq_true, beq_iff_eq, Bool.or_eq_true, bne_iff_ne, ne_eq,
    Int.dvd_iff_tmod_eq_zero]

theorem leapInd_bounds (y : Int) : 0 ≤ leapInd y ∧ leapInd y ≤ 1 := by
  unfold leapInd; split <;> omega

theorem leapsTo_step (y : Int) : leapsTo (y + 1) = leapsTo y + leapInd (y + 1) := by
  by_cases h4 : (4:Int) ∣ (y+1) <;> by_cases h100 : (100:Int) ∣ (y+1) <;>
    by_cases h400 : (400:Int) ∣ (y+1) <;>
    simp only [leapsTo, leapInd, isLeap_iff, h4, h100, h400, if_true, if_false,
      true_and, false_and, not_true, not_false_iff, true_or, or_true, false_or, or_false,
      if_pos, if_neg, not_false_eq_true] <;>
    omega

theorem leapsTo_mono {a b : Int} (h : a ≤ b) : leapsTo a ≤ leapsTo b := by
  obtain ⟨n, rfl⟩ : ∃ n : Nat, b = a + n := ⟨(b - a).toNat, by omega⟩
  clear h
  induction n with
  | zero => simp
  | succ k ih =>
    have h1 := leapsTo_step (a + k)
    have h2 := leapInd_bounds (a + k + 1)
    have hc : a + ((k + 1 : Nat) : Int) = (a + k) + 1 := by push_cast; ring
    rw [hc]
    omega

theorem era_tdiv_eq (z : Int) : (if 0 ≤ z then z else z - 399).tdiv 400 = z / 400 := by
  split
  · exact Int.tdiv_eq_ediv (by assumption) (by norm_num)
  · rw [show z - 399 = -(399 - z) by ring, Int.neg_tdiv,
      Int.tdiv_eq_ediv (by omega) (by norm_num)]
    omega

theorem doyS_le_337 {m2 : Int} (h0 : 0 ≤ m2) (h1 : m2 ≤ 11) : doyS m2 ≤ 337 := by
  unfold doyS; omega

theorem doyS_nonneg {m2 : Int} (h0 : 0 ≤ m2) : 0 ≤ doyS m2 := by
  unfold doyS; omega

theorem shiftLen_eleven (y : Int) : shiftLen y 11 = 28 + leapInd (y + 1) := rfl

theorem shiftLen_notFeb {y m2 : Int} (h : ¬ m2 = 11) :
    shiftLen y m2 = doyS (m2 + 1) - doyS m2 := by
  unfold shiftLen
  rw [if_neg h]

/-- DayOrdinal agrees with the closed form `dayF` on the shifted calendar
whenever the month is in [1, 12]. -/
theorem DayOrdinal_eq_dayF (y m d : Int) (h1 : 1 ≤ m) (h2 : m ≤ 12) :
    DayOrdinal y m d = dayF (shiftY y m) (shiftM m) d := by
  have key : ∀ z mm dd : Int, 0 ≤ mm →
      (if 0 ≤ z then z else z - 399).tdiv 400 * 146097 +
        ((z - (if 0 ≤ z then z else z - 399).tdiv 400 * 400) * 365 +
         (z - (if 0 ≤ z then z else z - 399).tdiv 400 * 400).tdiv 4 -
         (z - (if 0 ≤ z then z else z - 399).tdiv 400 * 400).tdiv 100 +
         ((153 * mm + 2).tdiv 5 + dd - 1)) - 719468
      = 365 * z + leapsTo z + doyS mm + dd - 1 - 719468 := by
    intro z mm dd h0
    rw [era_tdiv_eq]
    have e4 : (z - z / 400 * 400).tdiv 4 = (z - z / 400 * 400) / 4 :=
      Int.tdiv_eq_ediv (by omega) (by norm_num)
    have e100 : (z - z / 400 * 400).tdiv 100 = (z - z / 400 * 400) / 100 :=
      Int.tdiv_eq_ediv (by omega) (by norm_num)
    have e5 : (153 * mm + 2).tdiv 5 = (153 * mm + 2) / 5 :=
      Int.tdiv_eq_ediv (by omega) (by norm_num)
    rw [e4, e100, e5]
    unfold leapsTo doyS
    omega
  have h := key (y - (if m ≤ 2 then 1 else 0)) (m + (if 2 < m then -3 else 9)) d
    (by split <;> omega)
  simp only [DayOrdinal, dayF, shiftY, shiftM]
  exact h

/-- Strict monotonicity of the closed form in the shifted lexicographic
order, given that the first date's day is within its shifted month. -/
theorem dayF_strictMono {y1 m1 d1 y2 m2 d2 : Int}
    (hm1a : 0 ≤ m1) (hm1b : m1 ≤ 11) (hm2a : 0 ≤ m2) (hm2b : m2 ≤ 11)
    (hd1a : 1 ≤ d1) (hd1b : d1 ≤ shiftLen y1 m1) (hd2a : 1 ≤ d2)
    (hlt : y1 < y2 ∨ (y1 = y2 ∧ (m1 < m2 ∨ (m1 = m2 ∧ d1 < d2)))) :
    dayF y1 m1 d1 < dayF y2 m2 d2 := by
  have hd2 : 0 ≤ doyS m2 := doyS_nonneg hm2a
  rcases hlt with hy | ⟨rfl, hm | ⟨rfl, hd⟩⟩
  · have h1 := leapsTo_step y1
    have h2 : leapsTo (y1 + 1) ≤ leapsTo y2 := leapsTo_mono (by omega)
    have h3 := leapInd_bounds (y1 + 1)
    have hub : doyS m1 + d1 ≤ 365 + leapInd (y1 + 1) := by
      by_cases hm11 : m1 = 11
      · subst hm11
        rw [shiftLen_eleven] at hd1b
        have : doyS 11 = 337 := by decide
        omega
      · rw [shiftLen_notFeb hm11] at hd1b
        have ha : doyS m1 + d1 ≤ doyS (m1 + 1) := by unfold doyS at *; omega
        have hb : doyS (m1 + 1) ≤ 337 := doyS_le_337 (by omega) (by omega)
        omega
    unfold dayF
    omega
  · rw [shiftLen_notFeb (by omega : ¬ m1 = 11)] at hd1b
    have ha : doyS m1 + d1 ≤ doyS (m1 + 1) := by unfold doyS at *; omega
    have hb : doyS (m1 + 1) ≤ doyS m2 := by unfold doyS; omega
    unfold dayF
    omega
  · unfold dayF
    omega

/-- Translation of the canonical day-of-month bound into the shifted
calendar. -/
theorem canonical_day_le (y m d : Int) (h1 : 1 ≤ m) (h2 : m ≤ 12)
    (hd : d ≤ kDaysPerMonth (IsLeap y) m) :
    d ≤ shiftLen (shiftY y m) (shiftM m) := by
  by_cases hm2 : m = 2
  · subst hm2
    have hy : shiftY y 2 = y - 1 := rfl
    have hmm : shiftM 2 = 11 := by decide
    rw [hy, hmm, shiftLen_eleven]
    have hyy : y - 1 + 1 = y := by ring
    rw [hyy]
    simp only [kDaysPerMonth] at hd
    norm_num at hd
    unfold leapInd
    cases hIs : IsLeap y <;> simp [hIs] at hd ⊢ <;> omega
  · rw [shiftLen_notFeb (by unfold shiftM; split <;> omega)]
    interval_cases m <;> simp_all [kDaysPerMonth, shiftM, shiftY, doyS] <;> omega

/-- Translation of the civil order into the shifted lexicographic order. -/
theorem civilLt_shift {y1 m1 d1 y2 m2 d2 : Int}
    (h1a : 1 ≤ m1) (h1b : m1 ≤ 12) (h2a : 1 ≤ m2) (h2b : m2 ≤ 12)
    (h : CivilLt y1 m1 d1 y2 m2 d2) :
    shiftY y1 m1 < shiftY y2 m2 ∨
      (shiftY y1 m1 = shiftY y2 m2 ∧
        (shiftM m1 < shiftM m2 ∨ (shiftM m1 = shiftM m2 ∧ d1 < d2))) := by
  unfold CivilLt at h
  unfold shiftY shiftM
  split_ifs <;> omega

/-- C2: DayOrdinal maps 1970-01-01 to 0, is strictly increasing with respect
to the civil order on canonical proleptic-Gregorian dates, and the ordinals
of 2000-03-01 and 2000-02-01 differ by 29 (February 2000 being leap). -/
theorem DayOrdinal_strictMono_civil :
    DayOrdinal 1970 1 1 = 0 ∧
    (∀ y1 m1 d1 y2 m2 d2 : Int,
      CanonicalDate y1 m1 d1 → CanonicalDate y2 m2 d2 →
      CivilLt y1 m1 d1 y2 m2 d2 →
      DayOrdinal y1 m1 d1 < DayOrdinal y2 m2 d2) ∧
    DayOrdinal 2000 3 1 - DayOrdinal 2000 2 1 = 29 := by
  refine ⟨by decide, ?_, by decide⟩
  intro y1 m1 d1 y2 m2 d2 hc1 hc2 hlt
  obtain ⟨hm1a, hm1b, hd1a, hd1b⟩ := hc1
  obtain ⟨hm2a, hm2b, hd2a, _⟩ := hc2
  rw [DayOrdinal_eq_dayF y1 m1 d1 hm1a hm1b, DayOrdinal_eq_dayF y2 m2 d2 hm2a hm2b]
  exact dayF_strictMono
    (by unfold shiftM; split <;> omega) (by unfold shiftM; split <;> omega)
    (by unfold shiftM; split <;> omega) (by unfold shiftM; split <;> omega)
    hd1a (canonical_day_le y1 m1 d1 hm1a hm1b hd1b) hd2a
    (civilLt_shift hm1a hm1b hm2a hm2b hlt)

/-- Witness for `DayOrdinal_strictMono_civil` at the leap-day boundary
2024-02-29 < 2024-03-01. -/
theorem DayOrdinal_strictMono_civil_witness :
    CanonicalDate 2024 2 29 ∧ CanonicalDate 2024 3 1 ∧
    CivilLt 2024 2 29 2024 3 1 ∧ DayOrdinal 2024 2 29 < DayOrdinal 2024 3 1 :=
  ⟨by decide, by decide, by decide,
    DayOrdinal_strictMono_civil.2.1 2024 2 29 2024 3 1 (by decide) (by decide) (by decide)⟩

/-! ## Embedding of cctz_fmt.cc: the integer/offset/zone/subsecond readers -/

/-- Minimum of the C++ `int` type (the sources assume 32-bit int). -/
def kintmin : Int := -(2 ^ 31)

/-- Maximum of the C++ `int` type. -/
def kintmax : Int := 2 ^ 31 - 1

/-- Minimum of `int64_t`. -/
def int64Min : Int := -(2 ^ 63)

/-- Maximum of `int64_t`. -/
def int64Max : Int := 2 ^ 63 - 1

/-- The C `isspace` predicate in the default locale. -/
def cIsSpace (c : Char) : Bool :=
  c == ' ' || c == '\t' || c == '\n' || c == '\x0b' || c == '\x0c' || c == '\r'

/-- The character read through a `const char*` cursor: just past the end of
the list sits the NUL terminator. -/
def peek (l : List Char) : Char := l.headD (Char.ofNat 0)

/-- Lookup through `strchr(kDigits, c)` combined with the `d >= 10` stop
check of the callers: `some` of the digit value for a decimal digit, `none`
otherwise (the NUL inside kDigits yields index 10, which every caller treats
as a stop, exactly like a non-digit). -/
def digitVal (c : Char) : Option Int :=
  if 48 ≤ c.toNat ∧ c.toNat ≤ 57 then some ((c.toNat : Int) - 48) else none

/-- The digit-accumulation loop of ParseInt from cctz_fmt.cc: consume
decimal digits accumulating the value negatively, stopping on overflow
(`erange`), a non-digit, end of input, or width exhaustion.  Returns the
remaining input, the accumulated value, and the `erange` flag.  The overflow
comparisons happen before each arithmetic step, so unbounded `Int`
arithmetic agrees with the machine arithmetic on every path. -/
def parseIntLoop (kmin : Int) : List Char → Int → Int → (List Char × Int × Bool)
  | [], _, value => ([], value, false)
  | c :: rest, width, value =>
    match digitVal c with
    | none => (c :: rest, value, false)
    | some d =>
      if value < kmin.tdiv 10 then (c :: rest, value, true)
      else if value * 10 < kmin + d then (c :: rest, value * 10, true)
      else
        let v2 := value * 10 - d
        if 0 < width ∧ width - 1 = 0 then (rest, v2, false)
        else parseIntLoop kmin rest (if 0 < width then width - 1 else width) v2

/-- The tail of ParseInt after sign handling: run the digit loop from `bp`
and apply the final checks (at least one digit consumed, no overflow, the
most-negative value only with a sign, a rejected `-0`, and the [mn, mx] range
check).  On success the parsed value replaces the out-parameter `vp`. -/
def parseIntAfterSign (kmin : Int) (bp : List Char) (width mn mx vp : Int)
    (neg : Bool) : Option (List Char) × Int :=
  let r := parseIntLoop kmin bp width 0
  let rest := r.1
  let value := r.2.1
  let erange := r.2.2
  if rest.length ≠ bp.length ∧ erange = false ∧ (neg = true ∨ value ≠ kmin) then
    if neg = false ∨ value ≠ 0 then
      let v := if neg = false then -value else value
      if mn ≤ v ∧ v ≤ mx then (some rest, v) else (none, vp)
    else (none, vp)
  else (none, vp)

/-- ParseInt from cctz_fmt.cc for the instantiation whose element type has
minimum `kmin`: consumes at most `width` digits (0 meaning unlimited) with an
optional leading minus sign.  Returns the advanced cursor (`none` exactly on
the failure paths) and the final value of the out-parameter. -/
def ParseIntF (kmin : Int) (dp : Option (List Char)) (width mn mx vp : Int) :
    Option (List Char) × Int :=
  match dp with
  | none => (none, vp)
  | some l =>
    if peek l = '-' then
      if width ≤ 0 then parseIntAfterSign kmin l.tail width mn mx vp true
      else if ¬ width - 1 = 0 then parseIntAfterSign kmin l.tail (width - 1) mn mx vp true
      else (none, vp)
    else parseIntAfterSign kmin l width mn mx vp false

/-- ParseOffset from cctz_fmt.cc: a mandatory sign and exactly two hour
digits in [0, 23]; then, when present, a separator `sep` (NUL meaning none)
and two minute digits in [0, 59].  The offset out-parameter is written
whenever the hours parsed, with minutes defaulting to 0; the cursor advances
past the minutes only when exactly two minute digits parsed. -/
def ParseOffsetF (dp : Option (List Char)) (sep : Char) (offset : Int) :
    Option (List Char) × Int :=
  match dp with
  | none => (none, offset)
  | some l =>
    let sign := peek l
    let l1 := l.tail
    if sign = '+' ∨ sign = '-' then
      let h := ParseIntF kintmin (some l1) 2 0 23 0
      match h.1 with
      | some ap =>
        if l1.length - ap.length = 2 then
          let hours := h.2
          let ap2 := if ¬ sep = Char.ofNat 0 ∧ peek ap = sep then ap.tail else ap
          let mr := ParseIntF kintmin (some ap2) 2 0 59 0
          let minutes := match mr.1 with | some _ => mr.2 | none => 0
          let dp2 := match mr.1 with
            | some bp => if ap2.length - bp.length = 2 then bp else ap
            | none => ap
          let off := (hours * 60 + minutes) * 60
          (some dp2, if sign = '-' then -off else off)
        else (none, offset)
      | none => (none, offset)
    else (none, offset)

/-- ParseZone from cctz_fmt.cc: clear the zone, then read a nonempty run of
non-whitespace characters into it (an empty run is a failure). -/
def ParseZoneF (dp : Option (List Char)) : Option (List Char) × List Char :=
  match dp with
  | none => (none, [])
  | some l =>
    let run := l.takeWhile (fun c => ¬ cIsSpace c)
    if run = [] then (none, []) else (some (l.drop run.length), run)

/-- The digit loop of ParseSubSeconds: consume every digit, accumulating only
the first nine into `v` (counting them in `exp`). -/
def subSecLoop : List Char → Int → Int → (List Char × Int × Int)
  | [], v, exp => ([], v, exp)
  | c :: rest, v, exp =>
    match digitVal c with
    | none => (c :: rest, v, exp)
    | some d =>
      if exp < 9 then subSecLoop rest (v * 10 + d) (exp + 1)
      else subSecLoop rest v exp

/-- ParseSubSeconds from cctz_fmt.cc: nothing to do without a leading dot; a
dot must be followed by at least one digit; the value is scaled by
`kExp10[9 - exp]` into nanoseconds. -/
def ParseSubSecondsF (dp : Option (List Char)) (subseconds : Int) :
    Option (List Char) × Int :=
  match dp with
  | none => (none, subseconds)
  | some l =>
    if peek l = '.' then
      let bp := l.tail
      let r := subSecLoop bp 0 0
      if r.1.length ≠ bp.length then (some r.1, r.2.1 * 10 ^ (9 - r.2.2).toNat)
      else (none, subseconds)
    else (some l, subseconds)

/-! ## Embedding of cctz_fmt.cc: Parse -/

/-- The fields of `std::tm` used by Parse. -/
structure Tm where
  sec : Int
  min : Int
  hour : Int
  mday : Int
  mon : Int
  year : Int
  wday : Int
  yday : Int
  isdst : Int
deriving DecidableEq

/-- The zero-initialized `std::tm` (`std::tm tm = {0}`). -/
def tmZero : Tm :=
  { sec := 0, min := 0, hour := 0, mday := 0, mon := 0, year := 0,
    wday := 0, yday := 0, isdst := 0 }

/-- Oracle modelling the host `strptime(3)` (libc, not part of this
repository): given the remaining input, the directive string, and the current
`tm`, it returns the advanced input on success (`none` on failure) together
with the possibly modified `tm`. -/
def Strptime : Type := List Char → List Char → Tm → Option (List Char) × Tm

/-- Zone civil-to-instant conversion oracle.  Modelled from the spec: the
TimeZone facade (not under src/) dispatches `MakeTimeInfo(y, m, d, h, mi, s,
tz)` to the zone backend's MakeTimeInfo; a backend is, per §4.2/§6.4 of the
spec, a function producing a TimeInfo from the six civil fields. -/
def MkTI : Type := Int → Int → Int → Int → Int → Int → TimeInfo

/-- The mutable state of Parse (cctz_fmt.cc lines 476-504). -/
structure ParseState where
  data : Option (List Char)
  tm : Tm
  subseconds : Int
  offset : Int
  zone : List Char
  twelveHour : Bool
  afternoon : Bool
  sawPercentS : Bool
  percentSTime : Int
deriving DecidableEq

/-- Initial state of Parse: leading input whitespace skipped, default civil
time 1970-01-01 00:00:00 (Thursday, yearday 0), sentinel offset. -/
def initState (input : List Char) : ParseState :=
  { data := some (input.dropWhile cIsSpace),
    tm := { sec := 0, min := 0, hour := 0, mday := 1, mon := 0, year := 70,
            wday := 4, yday := 0, isdst := 0 },
    subseconds := 0, offset := kintmin, zone := ['U', 'T', 'C'],
    twelveHour := false, afternoon := false,
    sawPercentS := false, percentSTime := 0 }

/-- One delegated directive: `data = ParseTM(data, spec, &tm)` followed by
the `%p` back-patching probe (re-parse `"1" + consumed` with `"%I%p"` into a
zeroed tm and record whether the hour became 13). -/
def delegateTM (stp : Strptime) (data spec : List Char) (st : ParseState) :
    ParseState :=
  let r := stp data spec st.tm
  let st1 := { st with data := r.1, tm := r.2 }
  if spec = ['%', 'p'] then
    match r.1 with
    | some d2 =>
      let consumed := data.take (data.length - d2.length)
      let rp := stp ('1' :: consumed) ['%', 'I', '%', 'p'] tmZero
      { st1 with afternoon := rp.2.hour = 13 }
    | none => st1
  else st1

/-- The specifier-stepping loop of Parse from cctz_fmt.cc (lines 507-644),
as a fueled structural recursion; each iteration consumes at least one format
character, so fuel `format.length + 1` (supplied by `Parse`) is never
exhausted.  The state is returned unchanged once `data` is null or the format
is exhausted. -/
def parseLoopF (stp : Strptime) : Nat → List Char → ParseState → ParseState
  | 0, _, st => st
  | _ + 1, [], st => st
  | fuel + 1, f :: ftail, st =>
    match st.data with
    | none => st
    | some data =>
      if cIsSpace f then
        parseLoopF stp fuel (ftail.dropWhile cIsSpace)
          { st with data := some (data.dropWhile cIsSpace) }
      else if ¬ f = '%' then
        (if peek data = f then
          parseLoopF stp fuel ftail { st with data := some data.tail }
        else { st with data := none })
      else
        match ftail with
        | [] => { st with data := none }
        | s :: rest =>
          let dgo := fun (spec remFmt : List Char) (st2 : ParseState) =>
            parseLoopF stp fuel remFmt (delegateTM stp data spec st2)
          let eUnk := fun (st2 : ParseState) =>
            match rest with
            | [] => dgo ['%', 'E'] [] st2
            | x :: r2 =>
              dgo ['%', 'E', x] r2
                (if x = 'c' ∨ x = 'X' then { st2 with twelveHour := false } else st2)
          if s = 'Y' then
            let r := ParseIntF kintmin (some data) 0 (kintmin + 1900) kintmax st.tm.year
            match r.1 with
            | some d2 => parseLoopF stp fuel rest
                { st with data := some d2, tm := { st.tm with year := r.2 - 1900 } }
            | none => parseLoopF stp fuel rest { st with data := none }
          else if s = 'm' then
            let r := ParseIntF kintmin (some data) 2 1 12 st.tm.mon
            match r.1 with
            | some d2 => parseLoopF stp fuel rest
                { st with data := some d2, tm := { st.tm with mon := r.2 - 1 } }
            | none => parseLoopF stp fuel rest { st with data := none }
          else if s = 'd' then
            let r := ParseIntF kintmin (some data) 2 1 31 st.tm.mday
            parseLoopF stp fuel rest
              { st with data := r.1, tm := { st.tm with mday := r.2 } }
          else if s = 'H' then
            let r := ParseIntF kintmin (some data) 2 0 23 st.tm.hour
            parseLoopF stp fuel rest
              { st with
                data := r.1, tm := { st.tm with hour := r.2 }, twelveHour := false }
          else if s = 'M' then
            let r := ParseIntF kintmin (some data) 2 0 59 st.tm.min
            parseLoopF stp fuel rest
              { st with data := r.1, tm := { st.tm with min := r.2 } }
          else if s = 'S' then
            let r := ParseIntF kintmin (some data) 2 0 60 st.tm.sec
            parseLoopF stp fuel rest
              { st with data := r.1, tm := { st.tm with sec := r.2 } }
          else if s = 'I' ∨ s = 'r' then
            dgo ['%', s] rest { st with twelveHour := true }
          else if s = 'R' ∨ s = 'T' ∨ s = 'c' ∨ s = 'X' then
            dgo ['%', s] rest { st with twelveHour := false }
          else if s = 'z' then
            let r := ParseOffsetF (some data) (Char.ofNat 0) st.offset
            parseLoopF stp fuel rest { st with data := r.1, offset := r.2 }
          else if s = 'Z' then
            let r := ParseZoneF (some data)
            parseLoopF stp fuel rest { st with data := r.1, zone := r.2 }
          else if s = 's' then
            let r := ParseIntF int64Min (some data) 0 int64Min int64Max st.percentSTime
            match r.1 with
            | some d2 => parseLoopF stp fuel rest
                { st with data := some d2, percentSTime := r.2, sawPercentS := true }
            | none => parseLoopF stp fuel rest { st with data := none }
          else if s = 'E' then
            if peek rest = 'z' then
              let st2 :=
                if peek data = 'Z' then
                  { st with data := some data.tail, offset := 0 }
                else
                  let r := ParseOffsetF (some data) ':' st.offset
                  { st with data := r.1, offset := r.2 }
              parseLoopF stp fuel (rest.drop 1) st2
            else if peek rest = '*' ∧ peek rest.tail = 'S' then
              let r := ParseIntF kintmin (some data) 2 0 60 st.tm.sec
              let r2 := ParseSubSecondsF r.1 st.subseconds
              parseLoopF stp fuel (rest.drop 2)
                { st with
                  data := r2.1, tm := { st.tm with sec := r.2 }, subseconds := r2.2 }
            else if peek rest = '4' ∧ peek rest.tail = 'Y' then
              let r := ParseIntF kintmin (some data) 4 (-999) 9999 st.tm.year
              let st2 := match r.1 with
                | some d2 =>
                  if data.length - d2.length = 4 then
                    { st with data := some d2, tm := { st.tm with year := r.2 - 1900 } }
                  else { st with data := none }
                | none => { st with data := none }
              parseLoopF stp fuel (rest.drop 2) st2
            else if (digitVal (peek rest)).isSome then
              let fr := ParseIntF kintmin (some rest) 0 0 1024 0
              match fr.1 with
              | some np =>
                if peek np = 'S' then
                  let r := ParseIntF kintmin (some data) 2 0 60 st.tm.sec
                  let r2 := if 0 < fr.2 then ParseSubSecondsF r.1 st.subseconds
                    else (r.1, st.subseconds)
                  parseLoopF stp fuel np.tail
                    { st with
                      data := r2.1, tm := { st.tm with sec := r.2 }, subseconds := r2.2 }
                else eUnk st
              | none => eUnk st
            else eUnk st
          else if s = 'O' then
            match rest with
            | [] => dgo ['%', 'O'] [] st
            | x :: r2 =>
              let st2 :=
                if x = 'H' then { st with twelveHour := false }
                else if x = 'I' then { st with twelveHour := true }
                else st
              dgo ['%', 'O', x] r2 st2
          else
            dgo ['%', s] rest st

/-- The final two lines of Parse: fail when the civil conversion normalized,
otherwise assign `*tpp = ti.pre - seconds(offset) + subseconds`. -/
def finishTI (tpp : Int) (ti : TimeInfo) (offset2 subsec2 : Int) : Bool × Int :=
  if ti.normalized then (false, tpp)
  else (true, ti.pre - offset2 * 10 ^ 9 + subsec2)

/-- The reconciliation stage of Parse from cctz_fmt.cc (lines 646-697):
adjust a 12-hour afternoon, fail on a null cursor or trailing input,
short-circuit on `%s`, interpret the fields in UTC when an explicit offset
was seen (otherwise in the supplied zone with offset 0), normalize a leap
second, saturate the year, convert via the zone, fail if the conversion
normalized, and only then assign the out-parameter.  `mkTI` models
`MakeTimeInfo(…, tz)` of the supplied zone (the facade dispatch is modelled
from the spec, the facade source not being under src/); the UTC zone used
for an explicit offset is the libc UTC backend `MakeTimeInfoUtc`. -/
def reconcile (mkTI : MkTI) (tpp : Int) (st : ParseState) : Bool × Int :=
  let tm1 := if st.twelveHour ∧ st.afternoon ∧ st.tm.hour < 12
    then { st.tm with hour := st.tm.hour + 12 } else st.tm
  match st.data with
  | none => (false, tpp)
  | some d =>
    if ¬ d.dropWhile cIsSpace = [] then (false, tpp)
    else if st.sawPercentS then (true, st.percentSTime * 10 ^ 9)
    else
      let explicitOffset := ¬ st.offset = kintmin
      let offset1 := if explicitOffset then st.offset else 0
      let leap := tm1.sec = 60
      let tm2 := if leap then { tm1 with sec := 59 } else tm1
      let offset2 := if leap then offset1 - 1 else offset1
      let subsec2 := if leap then 0 else st.subseconds
      let year := if int64Max - 1900 < tm2.year then int64Max else tm2.year + 1900
      let ti := (if explicitOffset then MakeTimeInfoUtc else mkTI)
        year (tm2.mon + 1) tm2.mday tm2.hour tm2.min tm2.sec
      finishTI tpp ti offset2 subsec2

/-- Parse from cctz_fmt.cc (lines 473-697): run the specifier loop, then
reconcile.  Returns the success flag together with the final value of the
out-parameter `*tpp`. -/
def Parse (stp : Strptime) (mkTI : MkTI) (format input : List Char) (tpp : Int) :
    Bool × Int :=
  reconcile mkTI tpp (parseLoopF stp (format.length + 1) format (initState input))

/-- A strptime oracle that always fails, used for closed instances whose
formats never delegate. -/
def stpFail : Strptime := fun _ _ tm => (none, tm)

/-- A deliberately non-UTC zone conversion, used in closed instances to
exhibit independence from the supplied zone. -/
def mkTIJunk : MkTI := fun _ _ _ _ _ _ =>
  { kind := .UNIQUE, pre := 999, trans := 999, post := 999, normalized := false }

/-! ## Claim C3: the out-parameter is untouched on failure -/

/-- C3: whenever Parse returns false — directive mismatch, range violation,
overflow, trailing input, or post-conversion normalization — the
out-parameter keeps exactly the value it was passed; it is assigned only on
the two paths that return true. -/
theorem Parse_false_leaves_tpp (stp : Strptime) (mkTI : MkTI)
    (format input : List Char) (tpp : Int)
    (h : (Parse stp mkTI format input tpp).1 = false) :
    (Parse stp mkTI format input tpp).2 = tpp := by
  have hfin : ∀ (ti : TimeInfo) (o sub : Int),
      (finishTI tpp ti o sub).1 = false → (finishTI tpp ti o sub).2 = tpp := by
    intro ti o sub hf
    unfold finishTI at hf ⊢
    by_cases hn : ti.normalized = true
    · rw [if_pos hn]
    · rw [if_neg hn] at hf
      exact absurd hf (by simp)
  have main : ∀ st : ParseState, (reconcile mkTI tpp st).1 = false →
      (reconcile mkTI tpp st).2 = tpp := by
    intro st h
    unfold reconcile at h ⊢
    rcases hd : st.data with _ | d
    · simp only [hd]
    · simp only [hd] at h ⊢
      by_cases h1 : ¬ d.dropWhile cIsSpace = []
      · rw [if_pos h1]
      · rw [if_neg h1] at h ⊢
        by_cases h2 : st.sawPercentS = true
        · rw [if_pos h2] at h
          exact absurd h (by simp)
        · rw [if_neg h2] at h ⊢
          exact hfin _ _ _ h
  exact main _ h

/-- Witness for `Parse_false_leaves_tpp`: a directive mismatch leaves the
out-parameter at its initial value 42. -/
theorem Parse_false_leaves_tpp_witness :
    (Parse stpFail MakeTimeInfoUtc "%Y".toList "x".toList 42).1 = false ∧
    (Parse stpFail MakeTimeInfoUtc "%Y".toList "x".toList 42).2 = 42 :=
  ⟨by decide, Parse_false_leaves_tpp _ _ _ _ _ (by decide)⟩

/-! ## Claim C4: leap-second normalization in Parse -/

/-- C4: a parsed seconds field of 60 is normalized to 59 with one second
added back through the offset and the subseconds discarded: `"00:60"` under
`"%M:%S"` in UTC yields exactly the instant of 1970-01-01T00:01:00.0Z (60
seconds, as the third conjunct confirms against the civil fields), and
`"60.5"` under `"%E*S"` yields 00.0 of the following minute. -/
theorem Parse_leap_second_normalizes :
    Parse stpFail MakeTimeInfoUtc "%M:%S".toList "00:60".toList 0 = (true, 60 * 10 ^ 9) ∧
    Parse stpFail MakeTimeInfoUtc "%E*S".toList "60.5".toList 0 = (true, 60 * 10 ^ 9) ∧
    MakeTimeInfoUtc 1970 1 1 0 1 0 =
      { kind := .UNIQUE, pre := 60 * 10 ^ 9, trans := 60 * 10 ^ 9,
        post := 60 * 10 ^ 9, normalized := false } := by
  exact ⟨by decide, by decide, by decide⟩

/-! ## Claim C5: the %s short-circuit -/

/-- C5: whenever a `%s` directive was successfully parsed, Parse either
fails (null cursor or trailing input) or returns exactly `percent_s_time`
seconds since the Unix epoch; the conclusion does not mention the zone
conversion `mkTI`, the other parsed fields, the offset, or the subseconds,
which exhibits the claimed independence. -/
theorem Parse_percent_s_short_circuit (stp : Strptime) (mkTI : MkTI)
    (format input : List Char) (tpp : Int)
    (h : (parseLoopF stp (format.length + 1) format (initState input)).sawPercentS = true) :
    Parse stp mkTI format input tpp = (false, tpp) ∨
    Parse stp mkTI format input tpp =
      (true, (parseLoopF stp (format.length + 1) format (initState input)).percentSTime
        * 10 ^ 9) := by
  have main : ∀ st : ParseState, st.sawPercentS = true →
      reconcile mkTI tpp st = (false, tpp) ∨
      reconcile mkTI tpp st = (true, st.percentSTime * 10 ^ 9) := by
    intro st hs
    unfold reconcile
    rcases hd : st.data with _ | d
    · simp only [hd]
      left
      trivial
    · simp only [hd]
      by_cases h1 : ¬ d.dropWhile cIsSpace = []
      · rw [if_pos h1]
        left
        trivial
      · rw [if_neg h1, if_pos hs]
        right
        trivial
  exact main _ h

/-- Witness for `Parse_percent_s_short_circuit`: parsing "1000000000" with
"%s" against a deliberately non-UTC zone conversion yields exactly 10^9
seconds, the instant whose UTC civil fields are 2001-09-09 01:46:40. -/
theorem Parse_percent_s_short_circuit_witness :
    (parseLoopF stpFail ("%s".toList.length + 1) "%s".toList
      (initState "1000000000".toList)).sawPercentS = true ∧
    (Parse stpFail mkTIJunk "%s".toList "1000000000".toList 0 = (false, 0) ∨
      Parse stpFail mkTIJunk "%s".toList "1000000000".toList 0 =
        (true, 1000000000 * 10 ^ 9)) ∧
    MakeTimeInfoUtc 2001 9 9 1 46 40 =
      { kind := .UNIQUE, pre := 1000000000 * 10 ^ 9, trans := 1000000000 * 10 ^ 9,
        post := 1000000000 * 10 ^ 9, normalized := false } := by
  refine ⟨by decide, ?_, by decide⟩
  have h := Parse_percent_s_short_circuit stpFail mkTIJunk "%s".toList
    "1000000000".toList 0 (by decide)
  have he : (parseLoopF stpFail ("%s".toList.length + 1) "%s".toList
      (initState "1000000000".toList)).percentSTime = 1000000000 := by decide
  rw [he] at h
  exact h

/-! ## Claim C10: a signed zero is rejected by the integer consumer -/

/-- C10: ParseInt fails on a minus sign followed by digits that accumulate
to zero (first conjunct, for any instantiation with a negative type minimum,
any width-0 call, any bounds, and any all-zero digit run); concretely, Parse
of "-0" under "%Y" returns false with the out-parameter untouched while "0"
parses successfully. -/
theorem ParseIntF_minus_zero_fails :
    (∀ (kmin mn mx vp : Int) (zs rest : List Char), kmin ≤ -1 → ¬ zs = [] →
      (∀ c ∈ zs, c = '0') → digitVal (peek rest) = none →
      ParseIntF kmin (some ('-' :: (zs ++ rest))) 0 mn mx vp = (none, vp)) ∧
    Parse stpFail MakeTimeInfoUtc "%Y".toList "-0".toList 7 = (false, 7) ∧
    (Parse stpFail MakeTimeInfoUtc "%Y".toList "0".toList 7).1 = true := by
  refine ⟨?_, by decide, by decide⟩
  intro kmin mn mx vp zs rest hk hz hall hrest
  have hkd : kmin.tdiv 10 ≤ 0 := by
    rw [show kmin = -(-kmin) by ring, Int.neg_tdiv]
    have := Int.tdiv_nonneg (show (0:Int) ≤ -kmin by omega) (show (0:Int) ≤ 10 by norm_num)
    omega
  have loop0 : ∀ (l r : List Char), (∀ c ∈ l, c = '0') → digitVal (peek r) = none →
      parseIntLoop kmin (l ++ r) 0 0 = (r, 0, false) := by
    intro l
    induction l with
    | nil =>
      intro r _ hr
      cases r with
      | nil => rfl
      | cons c cr =>
        show parseIntLoop kmin (c :: cr) 0 0 = (c :: cr, 0, false)
        unfold parseIntLoop
        rw [show digitVal c = none from hr]
    | cons c l ih =>
      intro r hall hr
      have hc : c = '0' := hall c (List.mem_cons_self c l)
      subst hc
      show parseIntLoop kmin ('0' :: (l ++ r)) 0 0 = (r, 0, false)
      unfold parseIntLoop
      simp only [show digitVal '0' = some 0 from by decide]
      rw [if_neg (by omega : ¬ (0:Int) < kmin.tdiv 10)]
      rw [if_neg (by omega : ¬ (0:Int) * 10 < kmin + 0)]
      rw [if_neg (by norm_num : ¬ ((0:Int) < 0 ∧ (0:Int) - 1 = 0))]
      rw [show (if (0:Int) < 0 then (0:Int) - 1 else 0) = 0 from by norm_num]
      rw [show (0:Int) * 10 - 0 = 0 from by norm_num]
      exact ih r (fun x hx => hall x (List.mem_cons_of_mem _ hx)) hr
  have hbridge : ParseIntF kmin (some ('-' :: (zs ++ rest))) 0 mn mx vp
      = parseIntAfterSign kmin (zs ++ rest) 0 mn mx vp true := rfl
  rw [hbridge]
  unfold parseIntAfterSign
  simp only [loop0 zs rest hall hrest]
  have hlen : 0 < zs.length := List.length_pos.mpr hz
  have h1 : ¬ rest.length = (zs ++ rest).length := by
    simp only [List.length_append]
    omega
  simp [h1]

/-- Witness for the universally quantified part of
`ParseIntF_minus_zero_fails`, at the `%Y` instantiation on input "-0". -/
theorem ParseIntF_minus_zero_fails_witness :
    kintmin ≤ -1 ∧ ¬ (['0'] : List Char) = [] ∧
    ParseIntF kintmin (some ('-' :: ((['0'] : List Char) ++ []))) 0 (kintmin + 1900)
      kintmax 7 = (none, 7) :=
  ⟨by decide, by decide,
    ParseIntF_minus_zero_fails.1 kintmin (kintmin + 1900) kintmax 7 ['0'] []
      (by decide) (by decide) (by decide) (by decide)⟩

/-! ## Claim C7: the %z offset directive -/

theorem digitVal_some_bounds {c : Char} {a : Int} (h : digitVal c = some a) :
    0 ≤ a ∧ a ≤ 9 := by
  unfold digitVal at h
  split at h
  · rename_i hc
    injection h with h
    omega
  · exact absurd h (by simp)

theorem digitVal_ne_minus {c : Char} {a : Int} (h : digitVal c = some a) :
    ¬ c = '-' := by
  intro e
  rw [e, show digitVal '-' = none from by decide] at h
  exact Option.noConfusion h

theorem kintmin_tdiv_ten : kintmin.tdiv 10 = -214748364 := by decide

theorem kintmin_val : kintmin = -2147483648 := by decide

/-- ParseIntF on two leading digits with width 2 for the `int` instantiation:
consumes exactly the two digits and range-checks their value. -/
theorem ParseIntF_two_digits {c1 c2 : Char} {a b : Int} (rest : List Char)
    (h1 : digitVal c1 = some a) (h2 : digitVal c2 = some b) (mn mx vp : Int) :
    ParseIntF kintmin (some (c1 :: c2 :: rest)) 2 mn mx vp =
      if mn ≤ 10 * a + b ∧ 10 * a + b ≤ mx then (some rest, 10 * a + b)
      else (none, vp) := by
  have hb1 := digitVal_some_bounds h1
  have hb2 := digitVal_some_bounds h2
  have hm1 := digitVal_ne_minus h1
  have hkd := kintmin_tdiv_ten
  have hkv := kintmin_val
  have e0 : ParseIntF kintmin (some (c1 :: c2 :: rest)) 2 mn mx vp
      = parseIntAfterSign kintmin (c1 :: c2 :: rest) 2 mn mx vp false := by
    unfold ParseIntF
    dsimp only [peek, List.headD]
    rw [if_neg hm1]
  have eloop : parseIntLoop kintmin (c1 :: c2 :: rest) 2 0
      = (rest, -(10 * a + b), false) := by
    unfold parseIntLoop
    simp only [h1]
    rw [if_neg (by omega : ¬ (0:Int) < kintmin.tdiv 10)]
    rw [if_neg (by omega : ¬ (0:Int) * 10 < kintmin + a)]
    rw [if_neg (by norm_num : ¬ ((0:Int) < 2 ∧ (2:Int) - 1 = 0))]
    rw [show (if (0:Int) < 2 then (2:Int) - 1 else 2) = 1 from by norm_num]
    rw [show (0:Int) * 10 - a = -a from by ring]
    unfold parseIntLoop
    simp only [h2]
    rw [if_neg (by omega : ¬ -a < kintmin.tdiv 10)]
    rw [if_neg (by omega : ¬ -a * 10 < kintmin + b)]
    rw [if_pos (by norm_num : (0:Int) < 1 ∧ (1:Int) - 1 = 0)]
    rw [show -a * 10 - b = -(10 * a + b) from by ring]
  rw [e0]
  unfold parseIntAfterSign
  simp only [eloop]
  have hlen2 : ¬ rest.length = rest.length + 1 + 1 := by omega
  have hkne2 : ¬ -b + -(10 * a) = kintmin := by omega
  simp [hlen2, hkne2, neg_neg]

/-- ParseIntF with width 2 when only the first character is a digit:
consumes the single digit and range-checks it. -/
theorem ParseIntF_one_digit {c1 c2 : Char} {a : Int} (rest : List Char)
    (h1 : digitVal c1 = some a) (h2 : digitVal c2 = none) (mn mx vp : Int) :
    ParseIntF kintmin (some (c1 :: c2 :: rest)) 2 mn mx vp =
      if mn ≤ a ∧ a ≤ mx then (some (c2 :: rest), a) else (none, vp) := by
  have hb1 := digitVal_some_bounds h1
  have hm1 := digitVal_ne_minus h1
  have hkd := kintmin_tdiv_ten
  have hkv := kintmin_val
  have e0 : ParseIntF kintmin (some (c1 :: c2 :: rest)) 2 mn mx vp
      = parseIntAfterSign kintmin (c1 :: c2 :: rest) 2 mn mx vp false := by
    unfold ParseIntF
    dsimp only [peek, List.headD]
    rw [if_neg hm1]
  have eloop : parseIntLoop kintmin (c1 :: c2 :: rest) 2 0
      = (c2 :: rest, -a, false) := by
    unfold parseIntLoop
    simp only [h1]
    rw [if_neg (by omega : ¬ (0:Int) < kintmin.tdiv 10)]
    rw [if_neg (by omega : ¬ (0:Int) * 10 < kintmin + a)]
    rw [if_neg (by norm_num : ¬ ((0:Int) < 2 ∧ (2:Int) - 1 = 0))]
    rw [show (if (0:Int) < 2 then (2:Int) - 1 else 2) = 1 from by norm_num]
    rw [show (0:Int) * 10 - a = -a from by ring]
    unfold parseIntLoop
    simp only [h2]
  rw [e0]
  unfold parseIntAfterSign
  simp only [eloop]
  have hlen2 : ¬ (c2 :: rest).length = (c2 :: rest).length + 1 := by omega
  have hkne2 : ¬ -a = kintmin := by omega
  simp [hlen2, hkne2, neg_neg]

/-- ParseIntF fails immediately when the first character is neither a digit
nor a minus sign. -/
theorem ParseIntF_no_digit {c1 : Char} (rest : List Char)
    (h1 : digitVal c1 = none) (hm : ¬ c1 = '-') (w mn mx vp : Int) :
    ParseIntF kintmin (some (c1 :: rest)) w mn mx vp = (none, vp) := by
  have e0 : ParseIntF kintmin (some (c1 :: rest)) w mn mx vp
      = parseIntAfterSign kintmin (c1 :: rest) w mn mx vp false := by
    unfold ParseIntF
    dsimp only [peek, List.headD]
    rw [if_neg hm]
  have eloop : parseIntLoop kintmin (c1 :: rest) w 0 = (c1 :: rest, 0, false) := by
    unfold parseIntLoop
    simp only [h1]
  rw [e0]
  unfold parseIntAfterSign
  simp only [eloop]
  simp

/-- C7 (amended): under `%z` (no separator) the sign and exactly two hour
digits in [0, 23] are mandatory — a missing sign, an out-of-range hour, or a
single hour digit fails the directive — but the two minute digits are
optional: they are consumed when two in-range digits follow, while an absent
or out-of-range minute pair leaves the input unconsumed and contributes 0
minutes instead of failing. -/
theorem ParseOffsetF_z_spec :
    (∀ (l : List Char) (off : Int), ¬ (peek l = '+' ∨ peek l = '-') →
      ParseOffsetF (some l) (Char.ofNat 0) off = (none, off)) ∧
    (∀ (sgn h1c h2c m1c m2c : Char) (rest : List Char) (off a b c d : Int),
      (sgn = '+' ∨ sgn = '-') →
      digitVal h1c = some a → digitVal h2c = some b → 10 * a + b ≤ 23 →
      digitVal m1c = some c → digitVal m2c = some d → 10 * c + d ≤ 59 →
      ParseOffsetF (some (sgn :: h1c :: h2c :: m1c :: m2c :: rest)) (Char.ofNat 0) off =
        (some rest,
          if sgn = '-' then -(((10 * a + b) * 60 + (10 * c + d)) * 60)
          else ((10 * a + b) * 60 + (10 * c + d)) * 60)) ∧
    (∀ (sgn h1c h2c x : Char) (rest : List Char) (off a b : Int),
      (sgn = '+' ∨ sgn = '-') →
      digitVal h1c = some a → digitVal h2c = some b → 10 * a + b ≤ 23 →
      digitVal x = none → ¬ x = '-' →
      ParseOffsetF (some (sgn :: h1c :: h2c :: x :: rest)) (Char.ofNat 0) off =
        (some (x :: rest),
          if sgn = '-' then -((10 * a + b) * 60 * 60) else (10 * a + b) * 60 * 60)) ∧
    (∀ (sgn h1c h2c m1c m2c : Char) (rest : List Char) (off a b c d : Int),
      (sgn = '+' ∨ sgn = '-') →
      digitVal h1c = some a → digitVal h2c = some b → 10 * a + b ≤ 23 →
      digitVal m1c = some c → digitVal m2c = some d → 59 < 10 * c + d →
      ParseOffsetF (some (sgn :: h1c :: h2c :: m1c :: m2c :: rest)) (Char.ofNat 0) off =
        (some (m1c :: m2c :: rest),
          if sgn = '-' then -((10 * a + b) * 60 * 60) else (10 * a + b) * 60 * 60)) ∧
    (∀ (sgn h1c h2c : Char) (rest : List Char) (off a b : Int),
      (sgn = '+' ∨ sgn = '-') →
      digitVal h1c = some a → digitVal h2c = some b → 23 < 10 * a + b →
      ParseOffsetF (some (sgn :: h1c :: h2c :: rest)) (Char.ofNat 0) off = (none, off)) ∧
    ParseOffsetF (some ['+', '1']) (Char.ofNat 0) 5 = ((none : Option (List Char)), 5) := by
  refine ⟨?_, ?_, ?_, ?_, ?_, by decide⟩
  · intro l off hns
    unfold ParseOffsetF
    dsimp only
    rw [if_neg hns]
  · intro sgn h1c h2c m1c m2c rest off a b c d hs hh1 hh2 hab hm1 hm2 hcd
    have hq1 : (0:Int) ≤ 10 * a + b := by
      have := digitVal_some_bounds hh1
      have := digitVal_some_bounds hh2
      omega
    have hq2 : (0:Int) ≤ 10 * c + d := by
      have := digitVal_some_bounds hm1
      have := digitVal_some_bounds hm2
      omega
    unfold ParseOffsetF
    dsimp only [peek, List.headD, List.tail_cons]
    rw [if_pos hs]
    rw [ParseIntF_two_digits _ hh1 hh2]
    rw [if_pos ⟨hq1, hab⟩]
    dsimp only
    rw [if_pos (show (h1c :: h2c :: m1c :: m2c :: rest).length
        - (m1c :: m2c :: rest).length = 2 from by
      simp only [List.length_cons]; omega)]
    rw [if_neg (show ¬ (¬ Char.ofNat 0 = Char.ofNat 0 ∧
        m1c = Char.ofNat 0) from by simp)]
    rw [ParseIntF_two_digits _ hm1 hm2]
    rw [if_pos ⟨hq2, hcd⟩]
    dsimp only
    rw [if_pos (show (m1c :: m2c :: rest).length - rest.length = 2 from by
      simp only [List.length_cons]; omega)]
  · intro sgn h1c h2c x rest off a b hs hh1 hh2 hab hx hxm
    have hq1 : (0:Int) ≤ 10 * a + b := by
      have := digitVal_some_bounds hh1
      have := digitVal_some_bounds hh2
      omega
    unfold ParseOffsetF
    dsimp only [peek, List.headD, List.tail_cons]
    rw [if_pos hs]
    rw [ParseIntF_two_digits _ hh1 hh2]
    rw [if_pos ⟨hq1, hab⟩]
    dsimp only
    rw [if_pos (show (h1c :: h2c :: x :: rest).length - (x :: rest).length = 2 from by
      simp only [List.length_cons]; omega)]
    rw [if_neg (show ¬ (¬ Char.ofNat 0 = Char.ofNat 0 ∧
        x = Char.ofNat 0) from by simp)]
    rw [ParseIntF_no_digit _ hx hxm]
    dsimp only
    rw [show (10 * a + b) * 60 + 0 = (10 * a + b) * 60 from by ring]
  · intro sgn h1c h2c m1c m2c rest off a b c d hs hh1 hh2 hab hm1 hm2 hcd
    have hq1 : (0:Int) ≤ 10 * a + b := by
      have := digitVal_some_bounds hh1
      have := digitVal_some_bounds hh2
      omega
    unfold ParseOffsetF
    dsimp only [peek, List.headD, List.tail_cons]
    rw [if_pos hs]
    rw [ParseIntF_two_digits _ hh1 hh2]
    rw [if_pos ⟨hq1, hab⟩]
    dsimp only
    rw [if_pos (show (h1c :: h2c :: m1c :: m2c :: rest).length
        - (m1c :: m2c :: rest).length = 2 from by
      simp only [List.length_cons]; omega)]
    rw [if_neg (show ¬ (¬ Char.ofNat 0 = Char.ofNat 0 ∧
        m1c = Char.ofNat 0) from by simp)]
    rw [ParseIntF_two_digits _ hm1 hm2]
    rw [if_neg (show ¬ ((0:Int) ≤ 10 * c + d ∧ 10 * c + d ≤ 59) from by omega)]
    dsimp only
    rw [show (10 * a + b) * 60 + 0 = (10 * a + b) * 60 from by ring]
  · intro sgn h1c h2c rest off a b hs hh1 hh2 hab
    unfold ParseOffsetF
    dsimp only [peek, List.headD, List.tail_cons]
    rw [if_pos hs]
    rw [ParseIntF_two_digits _ hh1 hh2]
    rw [if_neg (show ¬ ((0:Int) ≤ 10 * a + b ∧ 10 * a + b ≤ 23) from by omega)]

/-- Witness for `ParseOffsetF_z_spec`: "+0230" parses to 02:30 with both
minute digits consumed. -/
theorem ParseOffsetF_z_spec_witness :
    digitVal '0' = some 0 ∧ ((10 * 0 + 2 : Int) ≤ 23) ∧
    ParseOffsetF (some ('+' :: '0' :: '2' :: '3' :: '0' :: [])) (Char.ofNat 0) 7 =
      (some [], ((10 * 0 + 2) * 60 + (10 * 3 + 0)) * 60) := by
  refine ⟨by decide, by decide, ?_⟩
  have h := ParseOffsetF_z_spec.2.1 '+' '0' '2' '3' '0' [] 7 0 2 3 0 (Or.inl rfl)
    (by decide) (by decide) (by decide) (by decide) (by decide) (by decide)
  rw [h]
  decide

/-- C7 counterexample: the claim as stated requires absent minute digits to
fail the `%z` directive, but parsing "+12" under "%z" succeeds, yielding the
instant at offset +12:00. -/
theorem Parse_z_hour_only_accepted :
    Parse stpFail MakeTimeInfoUtc "%z".toList "+12".toList 0 =
      (true, -43200 * 10 ^ 9) := by
  decide

/-! ## Claim C6: the subsecond split in BreakTime -/

theorem wrap64_id {x : Int} (h1 : -(2 ^ 63) ≤ x) (h2 : x < 2 ^ 63) : wrap64 x = x := by
  unfold wrap64
  omega

theorem wrap128_id {x : Int} (h1 : -(2 ^ 127) ≤ x) (h2 : x < 2 ^ 127) :
    wrap128 x = x := by
  unfold wrap128
  omega

/-- C6 (amended): for every time_point whose truncated quotient of seconds
fits strictly inside `int64_t` — this covers the spec's entire ±10^18-second
instant domain — BreakTime's split is the floor division: the subsecond lies
in [0, 10^9) nanoseconds and seconds·10^9 + subsecond reconstructs the
instant exactly. -/
theorem BreakTimeSplit_floor (tp : Int)
    (h1 : -(2 ^ 63) < tp.tdiv (10 ^ 9)) (h2 : tp.tdiv (10 ^ 9) < 2 ^ 63) :
    0 ≤ (BreakTimeSplit tp).2 ∧ (BreakTimeSplit tp).2 < 10 ^ 9 ∧
    (BreakTimeSplit tp).1 * 10 ^ 9 + (BreakTimeSplit tp).2 = tp := by
  have hqr : 10 ^ 9 * tp.tdiv (10 ^ 9) + tp.tmod (10 ^ 9) = tp :=
    Int.tdiv_add_tmod tp (10 ^ 9)
  have hrb : -(10 ^ 9) < tp.tmod (10 ^ 9) ∧ tp.tmod (10 ^ 9) < 10 ^ 9 := by
    by_cases htp : 0 ≤ tp
    · have he : tp.tmod (10 ^ 9) = tp % 10 ^ 9 := Int.tmod_eq_emod htp (by norm_num)
      constructor <;> omega
    · have hn : tp.tmod (10 ^ 9) = -((-tp).tmod (10 ^ 9)) := by
        rw [Int.tmod_def, Int.tmod_def, Int.neg_tdiv]
        ring
      have he : (-tp).tmod (10 ^ 9) = (-tp) % 10 ^ 9 :=
        Int.tmod_eq_emod (by omega) (by norm_num)
      constructor <;> omega
  have e1 : wrap128 tp = tp := wrap128_id (by omega) (by omega)
  have e2 : wrap64 (tp.tdiv (10 ^ 9)) = tp.tdiv (10 ^ 9) :=
    wrap64_id (by omega) (by omega)
  unfold BreakTimeSplit ToUnixSeconds FromUnixSeconds
  dsimp only
  rw [e1, e2]
  have e3 : wrap128 (tp - tp.tdiv (10 ^ 9) * 10 ^ 9) = tp - tp.tdiv (10 ^ 9) * 10 ^ 9 :=
    wrap128_id (by omega) (by omega)
  rw [e3]
  by_cases hr : tp - tp.tdiv (10 ^ 9) * 10 ^ 9 < 0
  · rw [if_pos hr]
    have e4 : wrap64 (tp.tdiv (10 ^ 9) - 1) = tp.tdiv (10 ^ 9) - 1 :=
      wrap64_id (by omega) (by omega)
    have e5 : wrap128 (tp - tp.tdiv (10 ^ 9) * 10 ^ 9 + 10 ^ 9)
        = tp - tp.tdiv (10 ^ 9) * 10 ^ 9 + 10 ^ 9 :=
      wrap128_id (by omega) (by omega)
    rw [e4, e5]
    refine ⟨by omega, by omega, by omega⟩
  · rw [if_neg hr]
    refine ⟨by omega, by omega, by omega⟩

/-- Witness for `BreakTimeSplit_floor` at the negative instant -5 ns:
seconds -1 and subsecond 10^9 - 5. -/
theorem BreakTimeSplit_floor_witness :
    -(2 ^ 63) < (-5 : Int).tdiv (10 ^ 9) ∧ ((-5 : Int).tdiv (10 ^ 9) < 2 ^ 63) ∧
    (0 ≤ (BreakTimeSplit (-5)).2 ∧ (BreakTimeSplit (-5)).2 < 10 ^ 9 ∧
      (BreakTimeSplit (-5)).1 * 10 ^ 9 + (BreakTimeSplit (-5)).2 = -5) :=
  ⟨by decide, by decide, BreakTimeSplit_floor (-5) (by decide) (by decide)⟩

/-- C6 counterexample: at the 128-bit-representable instant of 2^63 seconds
the `int64_t` conversion inside ToUnixSeconds wraps to -2^63, so the
returned subsecond is 2^64·10^9 — far outside the claimed [0, 1 s) range
(and the seconds count is not the floor quotient). -/
theorem BreakTimeSplit_wrap_violation :
    BreakTimeSplit (2 ^ 63 * 10 ^ 9) = (-(2 ^ 63), 2 ^ 64 * 10 ^ 9) ∧
    ¬ ((BreakTimeSplit (2 ^ 63 * 10 ^ 9)).2 < 10 ^ 9) := by
  exact ⟨by decide, by decide⟩

/-! ## Embedding of cctz_fmt.cc: formatting -/

/-- Digit character `kDigits[n]` (the model clamps an out-of-range index,
which in C++ would read out of bounds while still writing one byte). -/
def digitChar (n : Nat) : Char := Char.ofNat (48 + n)

/-- The do-while digit emission of Format64: the decimal digits of `v`, most
significant first, always at least one character.  Structural fuel: the
recursion depth is the digit count, at most 39 digits for any 128-bit value,
so the fuel 64 supplied by `natDigits` is never exhausted. -/
def natDigitsF : Nat → Nat → List Char
  | 0, v => [digitChar (v % 10)]
  | fuel + 1, v =>
    if v < 10 then [digitChar (v % 10)]
    else natDigitsF fuel (v / 10) ++ [digitChar (v % 10)]

/-- Decimal digits of a natural number, via `natDigitsF` with ample fuel. -/
def natDigits (v : Nat) : List Char := natDigitsF 64 v

/-- Format64 after its sign analysis: `extra` holds the pre-emitted
rightmost digit of the INT64_MIN special case, `neg` says whether `-` is
prepended (each of which consumed one unit of width in the source), and the
zero padding fills the remaining width. -/
def format64core (width : Int) (neg : Bool) (extra : List Char) (v : Nat) :
    List Char :=
  let ds := natDigits v ++ extra
  let padN := (width - (if neg then 1 else 0) - ds.length).toNat
  (if neg then ['-'] else []) ++ List.replicate padN '0' ++ ds

/-- Format64 from cctz_fmt.cc: signed decimal, zero-padded to `width`
(counting the sign), with the special case avoiding the negation of
INT64_MIN by splitting off its last digit first. -/
def Format64 (width v : Int) : List Char :=
  if v < 0 then
    if v = int64Min then
      let ld := -(v.tmod 10)
      let v2 := v.tdiv 10
      let p := if ld < 0 then (v2 + 1, ld + 10) else (v2, ld)
      format64core width true [digitChar p.2.toNat] (-p.1).toNat
    else format64core width true [] (-v).toNat
  else format64core width false [] v.toNat

/-- Format02d from cctz_fmt.cc: exactly the two characters
`kDigits[(v/10)%10]` and `kDigits[v%10]`. -/
def Format02d (v : Int) : List Char :=
  [digitChar ((v.tdiv 10).tmod 10).toNat, digitChar (v.tmod 10).toNat]

/-- FormatOffset from cctz_fmt.cc: sign, two hour digits, the separator when
not NUL, and two minute digits. -/
def FormatOffset (minutes : Int) (sep : Option Char) : List Char :=
  let m := if minutes < 0 then -minutes else minutes
  let sign := if minutes < 0 then '-' else '+'
  sign :: (Format02d (m.tdiv 60) ++
    (match sep with | some c => [c] | none => []) ++ Format02d (m.tmod 60))

/-- The `%e` variant of the day emission: a leading '0' becomes a space. -/
def emitE (v : Int) : List Char :=
  match Format02d v with
  | [] => []
  | c :: rest => if c = '0' then ' ' :: rest else c :: rest

/-- The `%E*S` emission: seconds, then a dot and the nine-digit nanosecond
field with its trailing zeros stripped (no dot when everything stripped).
`ns64` is the `int64_t` cast of the Breakdown's 128-bit subsecond count. -/
def emitEStarS (sec ns64 : Int) : List Char :=
  let ds := Format64 9 ns64
  let stripped := (ds.reverse.dropWhile (fun c => c = '0')).reverse
  Format02d sec ++ (if stripped = [] then [] else '.' :: stripped)

/-- The `%E#S` emission: seconds, and for a positive count `n` (clamped to
kDigits10_64 = 18) a dot and the subsecond scaled to `n` digits; the scaling
multiplication is an `int64_t` operation. -/
def emitEnS (n sec ns64 : Int) : List Char :=
  let n2 := if 18 < n then 18 else n
  if 0 < n2 then
    let scaled := if 9 < n2 then wrap64 (ns64 * 10 ^ (n2 - 9).toNat)
      else ns64.tdiv (10 ^ (9 - n2).toNat)
    Format02d sec ++ '.' :: Format64 n2 scaled
  else Format02d sec

/-- Breakdown from cctz.h; `subsecond` is the 128-bit nanosecond count. -/
structure Breakdown where
  year : Int
  month : Int
  day : Int
  hour : Int
  minute : Int
  second : Int
  subsecond : Int
  weekday : Int
  yearday : Int
  offset : Int
  is_dst : Bool
  abbr : List Char
deriving DecidableEq

/-- ToTM from cctz_fmt.cc: build the `std::tm` handed to strftime, with the
documented saturation of `tm_year`. -/
def ToTM (bd : Breakdown) : Tm :=
  { sec := bd.second, min := bd.minute, hour := bd.hour, mday := bd.day,
    mon := bd.month - 1,
    year := if bd.year < kintmin + 1900 then kintmin
      else if kintmax < bd.year - 1900 then kintmax else bd.year - 1900,
    wday := bd.weekday.tmod 7, yday := bd.yearday - 1,
    isdst := if bd.is_dst then 1 else 0 }

/-- Oracle modelling the host `strftime(3)` as used by FormatTM (libc, not
part of this repository): the delegated directive chunk and the tm produce
the appended output, possibly empty when every retry fails. -/
def Strftime : Type := List Char → Tm → List Char

/-- The scanning loop of Format from cctz_fmt.cc (lines 239-378).  The
suffix `C` models the cursor `cur`, the suffix `P` models `pending` (pointer
equality between positions of the format string is length equality of the
suffixes), and `res` accumulates the output.  Returns the final result and
pending suffix.  Fueled structural recursion: every iteration strictly
shortens `C`, so the fuel `format.length + 1` supplied by `FormatF` is never
exhausted. -/
def fmtWalkF (orc : Strftime) (tm : Tm) (tp : Int) (bd : Breakdown) :
    Nat → List Char → List Char → List Char → (List Char × List Char)
  | 0, _, P, res => (res, P)
  | fuel + 1, C, P, res =>
    match C with
    | [] => (res, P)
    | _ :: _ =>
      let C1 := C.dropWhile (fun c => ¬ c = '%')
      let fired1 := ¬ C1.length = C.length ∧ P.length = C.length
      let res1 := if fired1 then res ++ P.take (P.length - C1.length) else res
      let P1 := if fired1 then C1 else P
      let start1 := if fired1 then C1 else C
      let percent := C1
      let C2 := C1.dropWhile (fun c => c = '%')
      let st2 :=
        if ¬ C2.length = start1.length ∧ P1.length = start1.length then
          let escaped := (P1.length - C2.length) / 2
          let res2 := res1 ++ P1.take escaped
          let P2 := P1.drop (escaped * 2)
          if ¬ P2.length = C2.length ∧ C2 = [] then
            (res2 ++ P2.take 1, P2.drop 1)
          else (res2, P2)
        else (res1, P1)
      let res2 := st2.1
      let P2 := st2.2
      if C2 = [] ∨ (percent.length - C2.length) % 2 = 0 then
        fmtWalkF orc tm tp bd fuel C2 P2 res2
      else
        match C2 with
        | [] => fmtWalkF orc tm tp bd fuel C2 P2 res2
        | c :: Crest =>
          if c = 'Y' ∨ c = 'm' ∨ c = 'd' ∨ c = 'e' ∨ c = 'H' ∨ c = 'M' ∨ c = 'S' ∨
              c = 'z' ∨ c = 'Z' ∨ c = 's' then
            let resF := if ¬ P2.length = (c :: Crest).length + 1 then
                res2 ++ orc (P2.take (P2.length - ((c :: Crest).length + 1))) tm
              else res2
            let emission :=
              if c = 'Y' then Format64 0 bd.year
              else if c = 'm' then Format02d bd.month
              else if c = 'd' then Format02d bd.day
              else if c = 'e' then emitE bd.day
              else if c = 'H' then Format02d bd.hour
              else if c = 'M' then Format02d bd.minute
              else if c = 'S' then Format02d bd.second
              else if c = 'z' then FormatOffset (bd.offset.tdiv 60) none
              else if c = 'Z' then bd.abbr
              else Format64 0 (ToUnixSeconds tp)
            fmtWalkF orc tm tp bd fuel Crest Crest (resF ++ emission)
          else if ¬ c = 'E' then
            fmtWalkF orc tm tp bd fuel (c :: Crest) P2 res2
          else
            match Crest with
            | [] => fmtWalkF orc tm tp bd fuel [] P2 res2
            | e1 :: Crest2 =>
              let flushE := fun (r : List Char) =>
                if ¬ P2.length = (c :: Crest).length + 1 then
                  r ++ orc (P2.take (P2.length - ((c :: Crest).length + 1))) tm
                else r
              if e1 = 'z' then
                fmtWalkF orc tm tp bd fuel Crest2 Crest2
                  (flushE res2 ++ FormatOffset (bd.offset.tdiv 60) (some ':'))
              else if e1 = '*' ∧ peek Crest2 = 'S' then
                fmtWalkF orc tm tp bd fuel Crest2.tail Crest2.tail
                  (flushE res2 ++ emitEStarS bd.second (wrap64 bd.subsecond))
              else if e1 = '4' ∧ peek Crest2 = 'Y' then
                fmtWalkF orc tm tp bd fuel Crest2.tail Crest2.tail
                  (flushE res2 ++ Format64 4 bd.year)
              else if (digitVal e1).isSome then
                let fr := ParseIntF kintmin (some Crest) 0 0 1024 0
                match fr.1 with
                | some np =>
                  if peek np = 'S' then
                    fmtWalkF orc tm tp bd fuel np.tail np.tail
                      (flushE res2 ++ emitEnS fr.2 bd.second (wrap64 bd.subsecond))
                  else fmtWalkF orc tm tp bd fuel Crest P2 res2
                | none => fmtWalkF orc tm tp bd fuel Crest P2 res2
              else fmtWalkF orc tm tp bd fuel Crest P2 res2

/-- Format from cctz_fmt.cc (lines 219-386): break the instant down (the
Breakdown is a parameter here, the civil part of BreakTime being host
gmtime/localtime), convert to a tm, walk the directive string, and flush any
remaining pending region through strftime. -/
def FormatF (orc : Strftime) (format : List Char) (tp : Int) (bd : Breakdown) :
    List Char :=
  let tm := ToTM bd
  let r := fmtWalkF orc tm tp bd (format.length + 1) format format []
  if ¬ r.2 = [] then r.1 ++ orc r.2 tm else r.1

/-- Every digit emission is nonempty (the do-while writes at least once). -/
theorem natDigitsF_len_pos (fuel v : Nat) : 1 ≤ (natDigitsF fuel v).length := by
  cases fuel with
  | zero => simp [natDigitsF]
  | succ f =>
    unfold natDigitsF
    by_cases h : v < 10
    · rw [if_pos h]; simp
    · rw [if_neg h]; simp

/-- `v < 10 ^ k` yields at most `k` digits (for `1 ≤ k`). -/
theorem natDigitsF_len_le :
    ∀ (fuel k v : Nat), v < 10 ^ k → 1 ≤ k → (natDigitsF fuel v).length ≤ k := by
  intro fuel
  induction fuel with
  | zero => intro k v _ h1; simpa [natDigitsF] using h1
  | succ f ih =>
    intro k v hv hk
    unfold natDigitsF
    by_cases h10 : v < 10
    · rw [if_pos h10]; simpa using hk
    · rw [if_neg h10]
      simp only [List.length_append, List.length_cons, List.length_nil]
      have hk2 : 2 ≤ k := by
        by_contra hc
        have hk1 : k = 1 := by omega
        subst hk1
        simp at hv
        omega
      have hpow : 10 ^ k = 10 ^ (k - 1) * 10 := by
        rw [← pow_succ]
        congr 1
        omega
      have hv2 : v / 10 < 10 ^ (k - 1) := by omega
      have := ih (k - 1) (v / 10) hv2 (by omega)
      omega

/-- `10 ^ k ≤ v` yields more than `k` digits, given enough fuel. -/
theorem natDigitsF_len_gt :
    ∀ (fuel k v : Nat), 10 ^ k ≤ v → v < 10 ^ fuel → k < (natDigitsF fuel v).length := by
  intro fuel
  induction fuel with
  | zero =>
    intro k v h1 h2
    simp at h2
    have : (1 : Nat) ≤ 10 ^ k := Nat.one_le_pow _ _ (by norm_num)
    omega
  | succ f ih =>
    intro k v hkv hvf
    unfold natDigitsF
    by_cases h10 : v < 10
    · rw [if_pos h10]
      have hk0 : k = 0 := by
        by_contra hc
        have h1 : (10 : Nat) ^ 1 ≤ 10 ^ k := Nat.pow_le_pow_right (by norm_num) (by omega)
        simp at h1
        omega
      subst hk0
      simp
    · rw [if_neg h10]
      simp only [List.length_append, List.length_cons, List.length_nil]
      by_cases hk : k = 0
      · subst hk
        have := natDigitsF_len_pos f (v / 10)
        omega
      · have hpow : 10 ^ k = 10 ^ (k - 1) * 10 := by
          rw [← pow_succ]
          congr 1
          omega
        have hpowf : 10 ^ (f + 1) = 10 ^ f * 10 := by rw [← pow_succ]
        have h1 : 10 ^ (k - 1) ≤ v / 10 := by omega
        have h2 : v / 10 < 10 ^ f := by omega
        have := ih (k - 1) (v / 10) h1 h2
        omega

/-- The digit-count bounds restated for `natDigits`. -/
theorem natDigits_len_pos (v : Nat) : 1 ≤ (natDigits v).length :=
  natDigitsF_len_pos 64 v

/-- At most `k` digits below `10 ^ k`. -/
theorem natDigits_len_le (k v : Nat) (h : v < 10 ^ k) (h1 : 1 ≤ k) :
    (natDigits v).length ≤ k :=
  natDigitsF_len_le 64 k v h h1

/-- More than `k` digits from `10 ^ k` up (within 64 fuel, i.e. below
`10 ^ 64`). -/
theorem natDigits_len_gt (k v : Nat) (h : 10 ^ k ≤ v) (h2 : v < 10 ^ 64) :
    k < (natDigits v).length :=
  natDigitsF_len_gt 64 k v h h2

/-- Length of a `format64core` emission: sign, zero padding, digits. -/
theorem format64core_length (width : Int) (neg : Bool) (extra : List Char) (v : Nat) :
    (format64core width neg extra v).length
      = (if neg then 1 else 0)
        + (width - (if neg then 1 else 0)
            - ((natDigits v).length + extra.length)).toNat
        + ((natDigits v).length + extra.length) := by
  cases neg <;>
    simp [format64core, List.length_append, List.length_replicate] <;>
    omega

/-- Format64 on a nonnegative value takes the plain branch. -/
theorem Format64_nonneg (width y : Int) (h : 0 ≤ y) :
    Format64 width y = format64core width false [] y.toNat := by
  unfold Format64
  rw [if_neg (by omega)]

/-- Format64 on a negative value other than INT64_MIN negates and recurses. -/
theorem Format64_neg (width y : Int) (h : y < 0) (h2 : ¬ y = int64Min) :
    Format64 width y = format64core width true [] (-y).toNat := by
  unfold Format64
  rw [if_pos h, if_neg h2]

/-- Format64 at INT64_MIN splits off the final digit 8 first. -/
theorem Format64_min (width : Int) :
    Format64 width int64Min
      = format64core width true [digitChar 8] 922337203685477580 := by
  unfold Format64
  rw [if_pos (by unfold int64Min; omega), if_pos rfl]
  have h1 : (int64Min.tmod 10) = -8 := by decide
  have h2 : (int64Min.tdiv 10) = -922337203685477580 := by decide
  simp only [h1, h2]
  norm_num
  rfl

/-- Any int64 value in any width up to 20 fits in 21 scratch bytes. -/
theorem Format64_length_le (width y : Int) (hw1 : 0 ≤ width) (hw2 : width ≤ 20)
    (hy1 : -(2 ^ 63) ≤ y) (hy2 : y < 2 ^ 63) : (Format64 width y).length ≤ 21 := by
  by_cases h0 : y < 0
  · by_cases hmin : y = int64Min
    · subst hmin
      rw [Format64_min, format64core_length]
      have hlen : (natDigits 922337203685477580).length = 18 := by decide
      simp only [hlen, List.length_cons, List.length_nil, if_true]
      omega
    · rw [Format64_neg width y h0 hmin, format64core_length]
      have hlt : (-y).toNat < 10 ^ 19 := by
        unfold int64Min at hmin
        omega
      have hlen : (natDigits (-y).toNat).length ≤ 19 :=
        natDigitsF_len_le 64 19 (-y).toNat hlt (by norm_num)
      simp only [List.length_nil, if_true]
      omega
  · rw [Format64_nonneg width y (by omega), format64core_length]
    have hlt : y.toNat < 10 ^ 19 := by omega
    have hlen : (natDigits y.toNat).length ≤ 19 :=
      natDigitsF_len_le 64 19 y.toNat hlt (by norm_num)
    norm_num
    omega

/-- The int64 cast in BreakTime and in the subsecond emissions stays in
int64 range. -/
theorem wrap64_bounds (x : Int) : -(2 ^ 63) ≤ wrap64 x ∧ wrap64 x < 2 ^ 63 := by
  unfold wrap64
  omega

/-- Walking the directive string "%E4Y" performs exactly the width-4 year
emission, regardless of the strftime oracle, the instant, and the rest of
the breakdown. -/
theorem FormatF_E4Y (orc : Strftime) (tp : Int) (bd : Breakdown) :
    FormatF orc ('%' :: 'E' :: '4' :: 'Y' :: []) tp bd = Format64 4 bd.year := rfl

/-- A Breakdown fixing only the year (the %E4Y emission reads no other
field). -/
def bdAtYear (y : Int) : Breakdown :=
  { year := y, month := 1, day := 1, hour := 0, minute := 0, second := 0,
    subsecond := 0, weekday := 4, yearday := 1, offset := 0, is_dst := false,
    abbr := [] }

/-- A strftime oracle that appends nothing (FormatTM when every attempt
fails); the %E4Y walk never consults it. -/
def orcNull : Strftime := fun _ _ => []

/-- C8: the %E4Y directive emits the year through Format64 with width 4:
a nonnegative year is left-padded with zeros to four characters, a negative
year gets the sign and then zero padding to four characters total, every
year in [-999, 9999] yields exactly four characters, every representable
year outside that range yields more than four; in particular year -1
formats as "-001" and year 12345 as "12345", for every oracle, instant and
breakdown carrying that year. -/
theorem FormatF_E4Y_pads_to_width_four :
    (∀ (orc : Strftime) (tp : Int) (bd : Breakdown), bd.year = -1 →
      FormatF orc ('%' :: 'E' :: '4' :: 'Y' :: []) tp bd
        = '-' :: '0' :: '0' :: '1' :: []) ∧
    (∀ (orc : Strftime) (tp : Int) (bd : Breakdown), bd.year = 12345 →
      FormatF orc ('%' :: 'E' :: '4' :: 'Y' :: []) tp bd
        = '1' :: '2' :: '3' :: '4' :: '5' :: []) ∧
    (∀ y : Int, 0 ≤ y → y ≤ 9999 →
      Format64 4 y
        = List.replicate (4 - (natDigits y.toNat).length) '0' ++ natDigits y.toNat) ∧
    (∀ y : Int, -999 ≤ y → y < 0 →
      Format64 4 y
        = '-' :: (List.replicate (3 - (natDigits (-y).toNat).length) '0'
            ++ natDigits (-y).toNat)) ∧
    (∀ y : Int, -999 ≤ y → y ≤ 9999 → (Format64 4 y).length = 4) ∧
    (∀ y : Int, -(2 ^ 63) ≤ y → y < 2 ^ 63 → (y < -999 ∨ 9999 < y) →
      4 < (Format64 4 y).length) := by
  refine ⟨?_, ?_, ?_, ?_, ?_, ?_⟩
  · intro orc tp bd h
    rw [FormatF_E4Y, h]
    decide
  · intro orc tp bd h
    rw [FormatF_E4Y, h]
    decide
  · intro y h0 h9
    have hlt : y.toNat < 10 ^ 4 := by omega
    have hlen := natDigits_len_le 4 y.toNat hlt (by norm_num)
    rw [Format64_nonneg 4 y h0]
    simp only [format64core, List.append_nil, List.nil_append, Bool.false_eq_true,
      if_false, List.length_nil]
    congr 2
    omega
  · intro y h9 h0
    have hlt : (-y).toNat < 10 ^ 3 := by omega
    have hlen := natDigits_len_le 3 (-y).toNat hlt (by norm_num)
    rw [Format64_neg 4 y h0 (by unfold int64Min; omega)]
    simp only [format64core, List.append_nil, if_true, List.singleton_append,
      List.cons_append, List.length_nil]
    congr 2
    simp only [List.nil_append]
    congr 1
    omega
  · intro y h1 h2
    by_cases h0 : y < 0
    · rw [Format64_neg 4 y h0 (by unfold int64Min; omega), format64core_length]
      have hlt : (-y).toNat < 10 ^ 3 := by omega
      have hlen := natDigits_len_le 3 (-y).toNat hlt (by norm_num)
      have hpos := natDigits_len_pos (-y).toNat
      simp only [List.length_nil, if_true]
      omega
    · rw [Format64_nonneg 4 y (by omega), format64core_length]
      have hlt : y.toNat < 10 ^ 4 := by omega
      have hlen := natDigits_len_le 4 y.toNat hlt (by norm_num)
      have hpos := natDigits_len_pos y.toNat
      norm_num
      omega
  · intro y h1 h2 h3
    by_cases h0 : y < 0
    · by_cases hmin : y = int64Min
      · subst hmin
        decide
      · rw [Format64_neg 4 y h0 hmin, format64core_length]
        have h1000 : 10 ^ 3 ≤ (-y).toNat := by
          rcases h3 with h | h <;> omega
        have hfuel : (-y).toNat < 10 ^ 64 := by omega
        have hlen := natDigits_len_gt 3 (-y).toNat h1000 hfuel
        simp only [List.length_nil, if_true]
        omega
    · rw [Format64_nonneg 4 y (by omega), format64core_length]
      have h104 : 10 ^ 4 ≤ y.toNat := by
        rcases h3 with h | h <;> omega
      have hfuel : y.toNat < 10 ^ 64 := by omega
      have hlen := natDigits_len_gt 4 y.toNat h104 hfuel
      norm_num
      omega

/-- Witness for C8 at concrete breakdowns: year -1 walks to "-001",
year 12345 walks to "12345", and -12345 exceeds four characters. -/
theorem FormatF_E4Y_pads_to_width_four_witness :
    (bdAtYear (-1)).year = -1 ∧ (bdAtYear 12345).year = 12345 ∧
    FormatF orcNull ('%' :: 'E' :: '4' :: 'Y' :: []) 0 (bdAtYear (-1))
      = '-' :: '0' :: '0' :: '1' :: [] ∧
    FormatF orcNull ('%' :: 'E' :: '4' :: 'Y' :: []) 0 (bdAtYear 12345)
      = '1' :: '2' :: '3' :: '4' :: '5' :: [] ∧
    4 < (Format64 4 (-12345)).length :=
  ⟨rfl, rfl,
    FormatF_E4Y_pads_to_width_four.1 orcNull 0 (bdAtYear (-1)) rfl,
    FormatF_E4Y_pads_to_width_four.2.1 orcNull 0 (bdAtYear 12345) rfl,
    FormatF_E4Y_pads_to_width_four.2.2.2.2.2 (-12345) (by norm_num) (by norm_num)
      (Or.inl (by norm_num))⟩

/-- A nonnegative value below `10 ^ 18` in a width up to 18 takes at most
18 characters. -/
theorem Format64_small_nonneg_length (width v : Int) (h0 : 0 ≤ v)
    (hv : v < 10 ^ 18) (hw0 : 0 ≤ width) (hw : width ≤ 18) :
    (Format64 width v).length ≤ 18 := by
  rw [Format64_nonneg width v h0, format64core_length]
  have hlt : v.toNat < 10 ^ 18 := by omega
  have hlen := natDigits_len_le 18 v.toNat hlt (by norm_num)
  norm_num
  omega

/-- Truncating division of a subsecond count by a power of ten keeps it
nonnegative and below `10 ^ 9`. -/
theorem tdiv_pow_bound (a : Int) (k : Nat) (h0 : 0 ≤ a) (h : a < 10 ^ 9) :
    0 ≤ a.tdiv (10 ^ k) ∧ a.tdiv (10 ^ k) < 10 ^ 9 := by
  have hb : (0 : Int) < 10 ^ k := pow_pos (by norm_num) k
  have he : a.tdiv (10 ^ k) = a / 10 ^ k := Int.tdiv_eq_ediv h0 (by omega)
  have h1 : a / 10 ^ k ≤ a := Int.ediv_le_self _ h0
  have h2 : (0 : Int) ≤ a / 10 ^ k := Int.ediv_nonneg h0 (by omega)
  rw [he]
  omega

/-- In-range nanoseconds fill the width-9 field exactly. -/
theorem Format64_nine_ns (ns64 : Int) (h0 : 0 ≤ ns64) (h9 : ns64 < 10 ^ 9) :
    (Format64 9 ns64).length = 9 := by
  rw [Format64_nonneg 9 ns64 h0, format64core_length]
  have hlt : ns64.toNat < 10 ^ 9 := by omega
  have hlen := natDigits_len_le 9 ns64.toNat hlt (by norm_num)
  have hpos := natDigits_len_pos ns64.toNat
  norm_num
  omega

/-- Dropping a prefix never lengthens a list. -/
theorem length_dropWhile_le (p : Char → Bool) :
    ∀ l : List Char, (l.dropWhile p).length ≤ l.length := by
  intro l
  induction l with
  | nil => simp [List.dropWhile]
  | cons a t ih =>
    by_cases h : p a
    · simp only [List.dropWhile_cons, h, if_true, List.length_cons]
      omega
    · simp [List.dropWhile_cons, h]

/-- C9 (amended): each write Format performs into the 21-byte scratch
buffer fits, for every representable year and instant and for offsets,
two-digit fields and fractional-digit counts, provided the int64 cast of
the breakdown subsecond lies in [0, 10^9) — the invariant BreakTime
advertises for the subsecond.  The widest case is %E18S: 2 seconds digits,
the dot, and 18 scaled digits, exactly 21.  The bound 3 + |Format64 9 ·|
covers the %E*S bytes touched before zero-stripping.  The subsecond
hypothesis is necessary: Format trusts it, and instants whose seconds
truncation wraps in int64 break it, see `emitEnS_exceeds_scratch`. -/
theorem Format_scratch_emissions_fit (y v m sec ns64 n tp : Int)
    (sep : Option Char)
    (hy1 : -(2 ^ 63) ≤ y) (hy2 : y < 2 ^ 63)
    (hns1 : 0 ≤ ns64) (hns2 : ns64 < 10 ^ 9) :
    (Format64 0 y).length ≤ 21 ∧
    (Format64 4 y).length ≤ 21 ∧
    (Format02d v).length ≤ 21 ∧
    (FormatOffset m sep).length ≤ 21 ∧
    3 + (Format64 9 ns64).length ≤ 21 ∧
    (emitEStarS sec ns64).length ≤ 21 ∧
    (emitEnS n sec ns64).length ≤ 21 ∧
    (Format64 0 (ToUnixSeconds tp)).length ≤ 21 := by
  have hF9 := Format64_nine_ns ns64 hns1 hns2
  refine ⟨Format64_length_le 0 y (by norm_num) (by norm_num) hy1 hy2,
    Format64_length_le 4 y (by norm_num) (by norm_num) hy1 hy2,
    by simp [Format02d], ?_, by omega, ?_, ?_, ?_⟩
  · cases sep <;> simp [FormatOffset, Format02d]
  · unfold emitEStarS
    dsimp only
    split_ifs with h
    · simp [Format02d]
    · simp only [Format02d, List.length_append, List.length_cons, List.length_nil,
        List.length_reverse]
      have hs := length_dropWhile_le (fun c => c = '0') (Format64 9 ns64).reverse
      rw [List.length_reverse, hF9] at hs
      omega
  · unfold emitEnS
    dsimp only
    by_cases h18 : 18 < n
    · simp only [if_pos h18]
      rw [if_pos (show (0 : Int) < 18 by norm_num)]
      rw [if_pos (show (9 : Int) < 18 by norm_num)]
      simp only [show ((18 : Int) - 9).toNat = 9 from rfl]
      have hm2 : ns64 * 10 ^ 9 ≤ (10 ^ 9 - 1) * 10 ^ 9 :=
        mul_le_mul_of_nonneg_right (by omega) (by norm_num)
      have hprod1 : 0 ≤ ns64 * 10 ^ 9 := mul_nonneg hns1 (by norm_num)
      have hprod2 : ns64 * 10 ^ 9 < 10 ^ 18 := by omega
      rw [wrap64_id (by omega) (by omega)]
      have hlen := Format64_small_nonneg_length 18 (ns64 * 10 ^ 9) hprod1 hprod2
        (by norm_num) (by norm_num)
      simp only [Format02d, List.length_append, List.length_cons, List.length_nil]
      omega
    · simp only [if_neg h18]
      by_cases hn : 0 < n
      · rw [if_pos hn]
        by_cases h9n : 9 < n
        · rw [if_pos h9n]
          have hk : (n - 9).toNat ≤ 9 := by omega
          have hpow : (10 : Int) ^ (n - 9).toNat ≤ 10 ^ 9 :=
            pow_le_pow_right (by norm_num) hk
          have hpw0 : (0 : Int) ≤ 10 ^ (n - 9).toNat := by positivity
          have hm1 : ns64 * 10 ^ (n - 9).toNat ≤ ns64 * 10 ^ 9 :=
            mul_le_mul_of_nonneg_left hpow hns1
          have hm2 : ns64 * 10 ^ 9 ≤ (10 ^ 9 - 1) * 10 ^ 9 :=
            mul_le_mul_of_nonneg_right (by omega) (by norm_num)
          have hprod1 : 0 ≤ ns64 * 10 ^ (n - 9).toNat := mul_nonneg hns1 hpw0
          have hprod2 : ns64 * 10 ^ (n - 9).toNat < 10 ^ 18 := by omega
          rw [wrap64_id (by omega) (by omega)]
          have hlen := Format64_small_nonneg_length n _ hprod1 hprod2 (by omega)
            (by omega)
          simp only [Format02d, List.length_append, List.length_cons, List.length_nil]
          omega
        · rw [if_neg h9n]
          have hdiv := tdiv_pow_bound ns64 (9 - n).toNat hns1 hns2
          have hlen := Format64_small_nonneg_length n _ hdiv.1 (by omega) (by omega)
            (by omega)
          simp only [Format02d, List.length_append, List.length_cons, List.length_nil]
          omega
      · rw [if_neg hn]
        simp [Format02d]
  · have he : ToUnixSeconds tp = wrap64 ((wrap128 tp).tdiv (10 ^ 9)) := rfl
    rw [he]
    exact Format64_length_le 0 _ (by norm_num) (by norm_num)
      (wrap64_bounds _).1 (wrap64_bounds _).2

/-- Witness for C9: the bounds at the most extreme year, a wrapped instant,
and the widest in-range subsecond with 18 fractional digits. -/
theorem Format_scratch_emissions_fit_witness :
    (-(2 ^ 63) : Int) ≤ -(2 ^ 63) ∧ (-(2 ^ 63) : Int) < 2 ^ 63 ∧
    (0 : Int) ≤ 999999999 ∧ (999999999 : Int) < 10 ^ 9 ∧
    ((Format64 0 (-(2 ^ 63))).length ≤ 21 ∧
      (Format64 4 (-(2 ^ 63))).length ≤ 21 ∧
      (Format02d 61).length ≤ 21 ∧
      (FormatOffset (-90) (some ':')).length ≤ 21 ∧
      3 + (Format64 9 999999999).length ≤ 21 ∧
      (emitEStarS 60 999999999).length ≤ 21 ∧
      (emitEnS 18 60 999999999).length ≤ 21 ∧
      (Format64 0 (ToUnixSeconds (-(2 ^ 63 + 1) * 10 ^ 9))).length ≤ 21) :=
  ⟨by norm_num, by norm_num, by norm_num, by norm_num,
    Format_scratch_emissions_fit (-(2 ^ 63)) 61 (-90) 60 999999999 18
      (-(2 ^ 63 + 1) * 10 ^ 9) (some ':') (by norm_num) (by norm_num)
      (by norm_num) (by norm_num)⟩

/-- C9 (counterexample): at the instant -(2^63+1) seconds (in nanoseconds,
well inside the 128-bit range), the int64 truncation in ToUnixSeconds
wraps, BreakTime's negative-subsecond fix-up then yields a subsecond whose
int64 cast — the `nanoseconds` Format reads — is 10^9, outside [0, 10^9);
the %E18S emission for it is 22 characters, one more than the 21-byte
scratch buffer, so the write runs past the buffer. -/
theorem emitEnS_exceeds_scratch :
    wrap64 ((BreakTimeSplit (-(2 ^ 63 + 1) * 10 ^ 9)).2) = 10 ^ 9 ∧
    21 < (emitEnS 18 0 (wrap64 ((BreakTimeSplit (-(2 ^ 63 + 1) * 10 ^ 9)).2))).length := by
  exact ⟨by decide, by decide⟩

end Cctz
